import Mathlib

/-
Verification of the stoichiometric balancing scripts of the
GEMs-Phureja-Creole repository.

The scripts under scripts/curation manipulate COBRApy reactions, which
expose an ordered metabolite-to-coefficient mapping.  We embed that
mapping as an association list `List (Metabolite × Rat)` in insertion
order (Python dicts preserve insertion order); float arithmetic on
stoichiometric coefficients and tolerances is embedded over `Rat`.
The library calls `reaction.metabolites[m] -= x`, `reaction.add_metabolites`
and `reaction.metabolites.clear()` are embedded as the corresponding plain
updates of that mapping, which is the interface level the scripts program
against; zero coefficients are kept in the mapping.
-/

namespace GemBal

/-- Python `abs` on rationals. -/
def rabs (q : Rat) : Rat := if q < 0 then -q else q

/-- Python `max` of two rationals (binary step of `max` over an iterable). -/
def rmax (a b : Rat) : Rat := if a ≤ b then b else a

/-- Value of a run of ASCII digit characters, `int` on a nonempty digit string. -/
def digitsVal (ds : List Char) : Nat :=
  ds.foldl (fun a c => a * 10 + (c.toNat - 48)) 0

/-- Character-list prefix test (`str.startswith` on the underlying characters). -/
def chPre : List Char → List Char → Bool
  | [], _ => true
  | _ :: _, [] => false
  | a :: as, b :: bs => a == b && chPre as bs

/-- Substring occurrence test (`pat in s` for Python strings). -/
def chSub (p : List Char) : List Char → Bool
  | [] => p.isEmpty
  | c :: cs => chPre p (c :: cs) || chSub p cs

/-- Python `s.startswith(p)`. -/
def startsWithStr (p s : String) : Bool := chPre p.toList s.toList

/-- Python `p in s` substring test. -/
def containsStr (s p : String) : Bool := chSub p.toList s.toList

/-- Python `s.lower()` restricted to ASCII, as used on formula strings. -/
def lowerStr (s : String) : String := String.mk (s.toList.map Char.toLower)

/-- Python `s.split('_')[0]`: the identifier up to the first underscore. -/
def idStem (s : String) : String := String.mk (s.toList.takeWhile (fun c => c != '_'))

/-- Element-count table update `elements[element] += count` on a Python dict
(first-occurrence insertion order is preserved). -/
def addCount : List (String × Nat) → String → Nat → List (String × Nat)
  | [], e, n => [(e, n)]
  | (e', n') :: rest, e, n =>
    if e' = e then (e', n' + n) :: rest else (e', n') :: addCount rest e n

/-- Python `elements.get(e, 0)` on an element-count table. -/
def countOf : List (String × Nat) → String → Nat
  | [], _ => 0
  | (k, n) :: rest, e => if k = e then n else countOf rest e

/-- Rational-valued dict update `d[k] += v` (inserting when absent). -/
def addQ : List (String × Rat) → String → Rat → List (String × Rat)
  | [], k, v => [(k, v)]
  | (k', v') :: rest, k, v =>
    if k' = k then (k', v' + v) :: rest else (k', v') :: addQ rest k v

/-- Python `d.get(k, 0)` on a rational-valued dict. -/
def lookupQ : List (String × Rat) → String → Rat
  | [], _ => 0
  | (k, v) :: rest, e => if k = e then v else lookupQ rest e

/-- Python `k in d` on a keyed association list. -/
def hasKey {α : Type} (l : List (String × α)) (k : String) : Bool :=
  l.any (fun p => decide (p.1 = k))

/-- Emit the pending regex token: a symbol with its digit run, an absent
digit run counting as 1 (`int(count) if count else 1`). -/
def flushTok (acc : List (String × Nat)) : Option (String × Option Nat) → List (String × Nat)
  | none => acc
  | some (sym, none) => addCount acc sym 1
  | some (sym, some n) => addCount acc sym n

/-- Left-to-right scan of all matches of the regex `([A-Z][a-z]?)(\d*)`,
accumulating counts per element as `re.findall`/`re.finditer` do: an
uppercase letter opens a token, one immediately following lowercase letter
may extend it, an immediately following digit run is its count, and any
other character closes the current token and is skipped. -/
def scanFormulaAux (acc : List (String × Nat)) (pending : Option (String × Option Nat)) :
    List Char → List (String × Nat)
  | [] => flushTok acc pending
  | c :: cs =>
    if c.isUpper then
      scanFormulaAux (flushTok acc pending) (some (String.mk [c], none)) cs
    else if c.isLower then
      match pending with
      | some (sym, none) =>
        if sym.toList.length = 1 then
          scanFormulaAux acc (some (String.mk (sym.toList ++ [c]), none)) cs
        else
          scanFormulaAux (flushTok acc pending) none cs
      | _ => scanFormulaAux (flushTok acc pending) none cs
    else if c.isDigit then
      match pending with
      | some (sym, d) =>
        scanFormulaAux acc (some (sym, some ((d.getD 0) * 10 + (c.toNat - 48)))) cs
      | none => scanFormulaAux acc none cs
    else
      scanFormulaAux (flushTok acc pending) none cs

/-- All matches of `([A-Z][a-z]?)(\d*)` over a character list, as an
element-count table. -/
def scanFormula (cs : List Char) : List (String × Nat) := scanFormulaAux [] none cs

/-- Leftmost match of the regex `[+-]\d*$`: a sign character followed only by
digits up to the end of the string.  Returns the sign and the digit run. -/
def chargeSuffix : List Char → Option (Char × List Char)
  | [] => none
  | c :: cs =>
    if (c == '+' || c == '-') && cs.all Char.isDigit then some (c, cs)
    else chargeSuffix cs

/-- Result of `re.sub(r'[+-]\d*$', '', formula)`: the formula with the
leftmost trailing charge suffix removed. -/
def stripChargeSuffix : List Char → List Char
  | [] => []
  | c :: cs =>
    if (c == '+' || c == '-') && cs.all Char.isDigit then []
    else c :: stripChargeSuffix cs

/-- Metabolite record: the fields of a COBRApy metabolite read by the
balancing scripts.  `ann` is the free-form annotation mapping. -/
structure Metabolite where
  id : String
  formula : Option String
  charge : Option Int
  compartment : String
  name : Option String
  ann : List (String × String)
deriving DecidableEq

/-- Reaction record: identifier and the ordered metabolite-to-coefficient
mapping (negative coefficient = reactant, nonnegative = product). -/
structure Rxn where
  id : String
  mets : List (Metabolite × Rat)
deriving DecidableEq

/-- Truthiness of an optional string (`if not formula` in Python: both an
absent value and the empty string are falsy). -/
def truthy : Option String → Bool
  | none => false
  | some s => s != ""

/-- Python falsiness of `metabolite.formula`. -/
def formulaFalsy (m : Metabolite) : Bool := !(truthy m.formula)

/-- Reaction-mapping update shared by `reaction.metabolites[m] -= x` (when
`m` is already a key) and `reaction.add_metabolites({m: x})` with
`combine=True` (which inserts `m` when absent): both add `x` to the
coefficient of `m`, creating the entry at the end when missing. -/
def addMet : List (Metabolite × Rat) → Metabolite → Rat → List (Metabolite × Rat)
  | [], m, d => [(m, d)]
  | (m', c) :: rest, m, d =>
    if m' = m then (m', c + d) :: rest else (m', c) :: addMet rest m d

/-- Python coefficient lookup with 0 for an absent metabolite. -/
def getMetCoeff : List (Metabolite × Rat) → Metabolite → Rat
  | [], _ => 0
  | (m', c) :: rest, m => if m' = m then c else getMetCoeff rest m

/-- The revert idiom `reaction.metabolites.clear()` followed by
`reaction.add_metabolites(original_metabolites)`: the original dict is
replayed entry by entry into the emptied mapping. -/
def restoreMets (orig : List (Metabolite × Rat)) : List (Metabolite × Rat) :=
  orig.foldl (fun acc p => addMet acc p.1 p.2) []

/-- cobra `reaction.reactants`: metabolites with negative coefficient. -/
def reactantsOf (r : Rxn) : List (Metabolite × Rat) :=
  r.mets.filter (fun p => decide (p.2 < 0))

/-- cobra `reaction.products`: metabolites with nonnegative coefficient. -/
def productsOf (r : Rxn) : List (Metabolite × Rat) :=
  r.mets.filter (fun p => decide (0 ≤ p.2))

namespace BalanceModel

/-- ModelBalancer.parse_formula of balance_model_reactions.py: empty input
gives the empty table; otherwise every `+` and `-` character is removed
(`formula.replace`) and the element pattern is scanned with accumulation. -/
def parse_formula (formula : String) : List (String × Nat) :=
  if formula = "" then []
  else scanFormula (formula.toList.filter (fun c => c != '+' && c != '-'))

/-- ModelBalancer.formula_patterns: known formulas for common compound ids. -/
def formula_patterns : List (String × String) :=
  [("cpd00001", "H2O"), ("cpd00002", "C21H28N7O17P3"), ("cpd00008", "C21H27N7O17P3"),
   ("cpd00009", "H3O4P"), ("cpd00067", "H"), ("cpd00003", "C21H27N7O17P3"),
   ("cpd00004", "C21H26N7O17P3"), ("cpd00006", "C21H27N7O17P3"),
   ("cpd00005", "C21H28N7O18P3"), ("cpd00011", "CO2"), ("cpd00007", "O2")]

/-- ModelBalancer.get_metabolite_formula: the metabolite's own formula when
truthy, else the formula_patterns entry for the id stem, else the value of
the first annotation key containing "formula". -/
def get_metabolite_formula (m : Metabolite) : Option String :=
  if truthy m.formula then m.formula
  else
    match (formula_patterns.find? (fun p => decide (p.1 = idStem m.id))).map Prod.snd with
    | some f => some f
    | none =>
      match m.ann.find? (fun kv => containsStr (lowerStr kv.1) "formula") with
      | some kv => some kv.2
      | none => none

/-- Per-metabolite accumulation step of calculate_mass_balance:
`element_balance[element] += coefficient * count` over one parsed formula. -/
def accumFormula (acc : List (String × Rat)) (coeff : Rat) :
    List (String × Nat) → List (String × Rat)
  | [] => acc
  | q :: rest => accumFormula (addQ acc q.1 (coeff * (q.2 : Rat))) coeff rest

/-- Loop of ModelBalancer.calculate_mass_balance: on the first metabolite
whose resolved formula is falsy the whole result is the `unknown` sentinel. -/
def massBalanceAux (acc : List (String × Rat)) :
    List (Metabolite × Rat) → List (String × Rat)
  | [] => acc
  | (m, c) :: rest =>
    match get_metabolite_formula m with
    | none => [("unknown", 1)]
    | some f =>
      if f = "" then [("unknown", 1)]
      else massBalanceAux (accumFormula acc c (parse_formula f)) rest

/-- ModelBalancer.calculate_mass_balance: signed elemental balance
`sum(coefficient * count)` per element, or the `unknown` sentinel. -/
def calculate_mass_balance (r : Rxn) : List (String × Rat) :=
  massBalanceAux [] r.mets

/-- Charge sum over a metabolite mapping, `coefficient * (charge or 0)`. -/
def chargeSumMets (mets : List (Metabolite × Rat)) : Rat :=
  mets.foldl (fun acc p => acc + p.2 * ((p.1.charge.getD 0 : Int) : Rat)) 0

/-- ModelBalancer.calculate_charge_balance. -/
def calculate_charge_balance (r : Rxn) : Rat := chargeSumMets r.mets

/-- ModelBalancer.is_transport_reaction: metabolites span more than one
compartment. -/
def is_transport_reaction (r : Rxn) : Bool :=
  decide (1 < ((r.mets.map (fun p => p.1.compartment)).eraseDups).length)

/-- ModelBalancer.is_exchange_reaction: id with an EX_/DM_/SK_ marker or a
single participating metabolite. -/
def is_exchange_reaction (r : Rxn) : Bool :=
  startsWithStr "EX_" r.id || startsWithStr "DM_" r.id ||
    startsWithStr "SK_" r.id || decide (r.mets.length = 1)

/-- ModelBalancer maximum absolute imbalance
(`max(abs(val) for val in element_balance.values())`, 0 for the empty
table; folding `max` with 0 agrees since every `abs` is nonnegative). -/
def maxAbsVal (l : List (String × Rat)) : Rat :=
  (l.map (fun p => rabs p.2)).foldr rmax 0

/-- Compartment of the first metabolite whose id is not a proton id, the
main_compartment scan of ModelBalancer.fix_proton_balance. -/
def mainCompNonProton (r : Rxn) : Option String :=
  (r.mets.find? (fun p => !(startsWithStr "cpd00067" p.1.id))).map
    (fun p => p.1.compartment)

/-- Model-wide search for the proton species of the given compartment
(`metabolite.id.startswith('cpd00067') and metabolite.compartment == main`). -/
def findProton (allMets : List Metabolite) (comp : Option String) : Option Metabolite :=
  allMets.find? (fun m =>
    startsWithStr "cpd00067" m.id && decide (some m.compartment = comp))

/-- Model-wide search for the water species of the given compartment. -/
def findWater (allMets : List Metabolite) (comp : Option String) : Option Metabolite :=
  allMets.find? (fun m =>
    startsWithStr "cpd00001" m.id && decide (some m.compartment = comp))

/-- ModelBalancer.fix_proton_balance: when the H imbalance is at least the
tolerance, adjust the proton species of the main compartment by the negated
imbalance (creating the entry when absent); `false` when no proton species
exists there. -/
def fix_proton_balance (allMets : List Metabolite) (r : Rxn)
    (eb : List (String × Rat)) : Rxn × Bool :=
  if rabs (lookupQ eb "H") < 1/100 then (r, true)
  else
    match findProton allMets (mainCompNonProton r) with
    | some p => ({ r with mets := addMet r.mets p (-(lookupQ eb "H")) }, true)
    | none => (r, false)

/-- Compartment of the first metabolite of the reaction, the
main_compartment scan of ModelBalancer.fix_water_balance. -/
def mainCompFirst (r : Rxn) : Option String :=
  (r.mets.head?).map (fun p => p.1.compartment)

/-- ModelBalancer.fix_water_balance: when an O imbalance of at least the
tolerance remains and the H imbalance is within 0.1 of twice the O
imbalance, adjust the water species of the first metabolite's compartment
by the negated O imbalance; `false` when the ratio is inconsistent or no
water species exists there. -/
def fix_water_balance (allMets : List Metabolite) (r : Rxn)
    (eb : List (String × Rat)) : Rxn × Bool :=
  if rabs (lookupQ eb "O") < 1/100 then (r, true)
  else if 1/10 < rabs (lookupQ eb "H" - 2 * lookupQ eb "O") then (r, false)
  else
    match findWater allMets (mainCompFirst r) with
    | some w => ({ r with mets := addMet r.mets w (-(lookupQ eb "O")) }, true)
    | none => (r, false)

/-- Result of one fix attempt: the (possibly mutated) reaction, the boolean
return value, and whether the reaction id was appended to the fixed_mass /
fixed_charge report list. -/
structure FixResult where
  rxn : Rxn
  ok : Bool
  reportedFixed : Bool
deriving DecidableEq

/-- Proton step of balance_reaction_mass: run fix_proton_balance under its
guard and recompute the element balance only when it returned `True`. -/
def massStep1 (allMets : List Metabolite) (r : Rxn)
    (eb : List (String × Rat)) : Rxn × List (String × Rat) :=
  if hasKey eb "H" && decide (1/100 < rabs (lookupQ eb "H")) then
    match fix_proton_balance allMets r eb with
    | (r1, true) => (r1, calculate_mass_balance r1)
    | (r1, false) => (r1, eb)
  else (r, eb)

/-- Water step of balance_reaction_mass, over the state left by the proton
step. -/
def massStep2 (allMets : List Metabolite) (rc : Rxn × List (String × Rat)) :
    Rxn × List (String × Rat) :=
  if hasKey rc.2 "O" && decide (1/100 < rabs (lookupQ rc.2 "O")) then
    match fix_water_balance allMets rc.1 rc.2 with
    | (r2, true) => (r2, calculate_mass_balance r2)
    | (r2, false) => (r2, rc.2)
  else rc

/-- ModelBalancer.balance_reaction_mass: exchange and transport reactions
are skipped; an already-in-tolerance reaction is untouched; otherwise the
proton and water steps run and on a residual imbalance of at least the
tolerance all edits are replayed back from the original mapping. -/
def balance_reaction_mass (allMets : List Metabolite) (r : Rxn) : FixResult :=
  if is_exchange_reaction r || is_transport_reaction r then ⟨r, true, false⟩
  else if maxAbsVal (calculate_mass_balance r) < 1/100 then ⟨r, true, false⟩
  else if maxAbsVal (massStep2 allMets (massStep1 allMets r (calculate_mass_balance r))).2 < 1/100 then
    ⟨(massStep2 allMets (massStep1 allMets r (calculate_mass_balance r))).1, true, true⟩
  else
    ⟨{ (massStep2 allMets (massStep1 allMets r (calculate_mass_balance r))).1 with
        mets := restoreMets r.mets }, false, false⟩

/-- ModelBalancer.balance_reaction_charge: only exchange reactions are
skipped; otherwise a charge imbalance of at least the tolerance is pushed
onto the proton species of the first metabolite's compartment. -/
def balance_reaction_charge (allMets : List Metabolite) (r : Rxn) : FixResult :=
  if is_exchange_reaction r then ⟨r, true, false⟩
  else if rabs (calculate_charge_balance r) < 1/100 then ⟨r, true, false⟩
  else
    match findProton allMets (mainCompFirst r) with
    | some p =>
      ⟨{ r with mets := addMet r.mets p (-(calculate_charge_balance r)) }, true, true⟩
    | none => ⟨r, false, false⟩

/-- ModelBalancer.analyze_balance: collect the ids (with their imbalance)
of reactions with a computable element imbalance above tolerance, and of
reactions with a charge imbalance above tolerance.  Reactions with the
`unknown` sentinel are excluded from the mass list. -/
def analyzeStep (acc : List (String × List (String × Rat)) × List (String × Rat))
    (r : Rxn) : List (String × List (String × Rat)) × List (String × Rat) :=
  ((if !(calculate_mass_balance r).isEmpty &&
        !hasKey (calculate_mass_balance r) "unknown" &&
        decide (1/100 < maxAbsVal (calculate_mass_balance r)) then
      acc.1 ++ [(r.id, calculate_mass_balance r)]
    else acc.1),
   (if decide (1/100 < rabs (calculate_charge_balance r)) then
      acc.2 ++ [(r.id, calculate_charge_balance r)]
    else acc.2))

def analyze_balance (rxns : List Rxn) :
    List (String × List (String × Rat)) × List (String × Rat) :=
  rxns.foldl analyzeStep ([], [])

/-- `model.reactions.get_by_id`. -/
def getRxn (rxns : List Rxn) (rid : String) : Option Rxn :=
  rxns.find? (fun r => decide (r.id = rid))

/-- In-place replacement of the reaction with the given id. -/
def setRxn (rxns : List Rxn) (rid : String) (r' : Rxn) : List Rxn :=
  rxns.map (fun r => if r.id = rid then r' else r)

/-- State of one fix_all_reactions loop: the mutated reaction list, the
unfixable report entries `(id, type)`, the ids appended to the fixed list,
and the trace of every attempted id with the boolean the attempt returned
(made explicit so the report-completeness property can be stated). -/
structure LoopOut where
  rxns : List Rxn
  unfix : List (String × String)
  fixedIds : List String
  attempts : List (String × Bool)
deriving DecidableEq

/-- First loop of ModelBalancer.fix_all_reactions: each mass-imbalanced
entry is looked up by id and attempted; a `False` return appends an
unfixable entry of type "mass". -/
def fixMassLoop (allMets : List Metabolite) (rxns : List Rxn) :
    List (String × List (String × Rat)) → LoopOut
  | [] => ⟨rxns, [], [], []⟩
  | (rid, _) :: rest =>
    match getRxn rxns rid with
    | none => fixMassLoop allMets rxns rest
    | some r =>
      let res := balance_reaction_mass allMets r
      let out := fixMassLoop allMets (setRxn rxns rid res.rxn) rest
      ⟨out.rxns,
       if res.ok then out.unfix else (rid, "mass") :: out.unfix,
       if res.reportedFixed then rid :: out.fixedIds else out.fixedIds,
       (rid, res.ok) :: out.attempts⟩

/-- Second loop of ModelBalancer.fix_all_reactions, over the
charge-imbalanced entries, appending unfixable entries of type "charge". -/
def fixChargeLoop (allMets : List Metabolite) (rxns : List Rxn) :
    List (String × Rat) → LoopOut
  | [] => ⟨rxns, [], [], []⟩
  | (rid, _) :: rest =>
    match getRxn rxns rid with
    | none => fixChargeLoop allMets rxns rest
    | some r =>
      let res := balance_reaction_charge allMets r
      let out := fixChargeLoop allMets (setRxn rxns rid res.rxn) rest
      ⟨out.rxns,
       if res.ok then out.unfix else (rid, "charge") :: out.unfix,
       if res.reportedFixed then rid :: out.fixedIds else out.fixedIds,
       (rid, res.ok) :: out.attempts⟩

end BalanceModel

namespace BalanceRxns

/-- parse_formula of balance_reactions.py (textually identical in
fix_proton_balance.py and fix_hydrogen_balance.py): empty, "none" and
"null" inputs give the empty table; otherwise the trailing charge suffix
`[+-]\d*$` is removed and the element pattern is scanned. -/
def parse_formula (formula : String) : List (String × Nat) :=
  if formula = "" || lowerStr formula = "none" || lowerStr formula = "null" then []
  else scanFormula (stripChargeSuffix formula.toList)

/-- get_charge_from_formula of balance_reactions.py: the signed value of
the trailing charge suffix `([+-])(\d*)$`, an absent magnitude counting as
1, and 0 when there is no suffix. -/
def get_charge_from_formula (formula : String) : Int :=
  if formula = "" then 0
  else
    match chargeSuffix formula.toList with
    | some (sign, ds) =>
      (if sign = '+' then 1 else -1) * (if ds.isEmpty then 1 else (digitsVal ds : Int))
    | none => 0

/-- One side of analyze_reaction_balance: fold over reactants or products
accumulating `abs(coefficient) * count` per element and
`abs(coefficient) * charge`, collecting ids of metabolites with a falsy
formula (which are skipped, not propagated). -/
def sideGo (acc : List (String × Rat)) (chg : Rat) (miss : List String) :
    List (Metabolite × Rat) → List (String × Rat) × Rat × List String
  | [] => (acc, chg, miss)
  | (m, c) :: rest =>
    if formulaFalsy m then sideGo acc chg (miss ++ [m.id]) rest
    else
      sideGo
        ((parse_formula (m.formula.getD "")).foldl
          (fun a q => addQ a q.1 (rabs c * (q.2 : Rat))) acc)
        (chg + rabs c * ((get_charge_from_formula (m.formula.getD "") : Int) : Rat))
        miss rest

/-- Balance record returned by analyze_reaction_balance. -/
structure RxnBalanceInfo where
  missing_formulas : List String
  element_imbalances : List (String × Rat)
  charge_imbalance : Rat
  is_mass_balanced : Bool
  is_charge_balanced : Bool
  is_balanced : Bool
deriving DecidableEq

/-- analyze_reaction_balance of balance_reactions.py.  The union of the
two element-key sets is taken in reactants-then-products order (the Python
set iteration order is unspecified; no property below depends on it). -/
def analyze_reaction_balance (r : Rxn) : RxnBalanceInfo :=
  let re := sideGo [] 0 [] (reactantsOf r)
  let pe := sideGo [] 0 [] (productsOf r)
  let rkeys := re.1.map Prod.fst
  let pkeys := pe.1.map Prod.fst
  let allElems := rkeys ++ pkeys.filter (fun e => !rkeys.contains e)
  let imbs := allElems.filterMap (fun e =>
    let imb := lookupQ re.1 e - lookupQ pe.1 e
    if 1/1000000 < rabs imb then some (e, imb) else none)
  let cimb := re.2.1 - pe.2.1
  { missing_formulas := re.2.2 ++ pe.2.2
    element_imbalances := imbs
    charge_imbalance := cimb
    is_mass_balanced := imbs.isEmpty
    is_charge_balanced := decide (rabs cimb < 1/1000000)
    is_balanced := imbs.isEmpty && decide (rabs cimb < 1/1000000) }

/-- The reaction_details mapping built by analyze_model_balance: one entry
per reaction, keyed by id (the aggregate counters of the report are not
modelled; no claim refers to them). -/
def analyze_model_balance (rxns : List Rxn) : List (String × RxnBalanceInfo) :=
  rxns.map (fun r => (r.id, analyze_reaction_balance r))

end BalanceRxns

namespace ProtonFix

/-- H-balance record returned by analyze_h_balance of
fix_proton_balance.py. -/
structure HBalanceInfo where
  h_imbalance : Rat
  missing_formulas : List String
  can_fix_with_proton : Bool
  protons_needed : Rat
deriving DecidableEq

/-- One side of analyze_h_balance: `abs(coefficient) * elements.get('H', 0)`
summed over the side, with ids of falsy-formula metabolites collected. -/
def hSideGo (acc : Rat) (miss : List String) :
    List (Metabolite × Rat) → Rat × List String
  | [] => (acc, miss)
  | (m, c) :: rest =>
    if formulaFalsy m then hSideGo acc (miss ++ [m.id]) rest
    else
      hSideGo
        (acc + rabs c * (countOf (BalanceRxns.parse_formula (m.formula.getD "")) "H" : Rat))
        miss rest

/-- analyze_h_balance of fix_proton_balance.py: hydrogen imbalance is
reactant H minus product H; fixable with protons when it is nonzero with
absolute value at most 3. -/
def analyze_h_balance (r : Rxn) : HBalanceInfo :=
  let re := hSideGo 0 [] (reactantsOf r)
  let pe := hSideGo 0 [] (productsOf r)
  let h := re.1 - pe.1
  { h_imbalance := h
    missing_formulas := re.2 ++ pe.2
    can_fix_with_proton := decide (0 < rabs h) && decide (rabs h ≤ 3)
    protons_needed := h }

/-- Loop body of fix_proton_balance (dry_run false) for one reaction, given
the proton metabolite found once for the model: reactions with missing
formulas are skipped; a fixable imbalance adjusts the proton coefficient by
`-abs(protons_needed)` when protons_needed is positive and `+abs` when
negative; an absolute imbalance above 3 emits a manual-review entry. -/
def protonDelta (pn : Rat) : Rat :=
  if 0 < pn then -(rabs pn) else rabs pn

def fixProtonStep (proton : Metabolite) (r : Rxn) : Rxn × Option (String × Rat) :=
  if !(analyze_h_balance r).missing_formulas.isEmpty then (r, none)
  else if (analyze_h_balance r).can_fix_with_proton &&
      decide (0 < rabs (analyze_h_balance r).protons_needed) then
    ({ r with mets :=
        addMet r.mets proton (protonDelta (analyze_h_balance r).protons_needed) }, none)
  else if 3 < rabs (analyze_h_balance r).h_imbalance then
    (r, some (r.id, (analyze_h_balance r).h_imbalance))
  else (r, none)

/-- Whole-model loop of fix_proton_balance: the updated reactions and the
accumulated remaining_imbalanced review list. -/
def fix_proton_balance_run (proton : Metabolite) (rxns : List Rxn) :
    List Rxn × List (String × Rat) :=
  rxns.foldl (fun acc r =>
    match fixProtonStep proton r with
    | (r', some e) => (acc.1 ++ [r'], acc.2 ++ [e])
    | (r', none) => (acc.1 ++ [r'], acc.2)) ([], [])

end ProtonFix

/-- Helper for concrete test metabolites with a formula. -/
def mkMet (i f : String) (q : Int) (comp : String) : Metabolite :=
  ⟨i, some f, some q, comp, none, []⟩

/-- Helper for concrete test metabolites without a formula. -/
def mkMetNF (i : String) (comp : String) : Metabolite :=
  ⟨i, none, some 0, comp, none, []⟩

/-- Proton species of compartment c. -/
def protonC : Metabolite := mkMet "cpd00067_c" "H" 1 "c"

/-- Water species of compartment c. -/
def waterC : Metabolite := mkMet "cpd00001_c" "H2O" 0 "c"

/-- Unfixable reaction: one carbon against one nitrogen atom. -/
def rxnUnfix : Rxn := ⟨"R1", [(mkMet "a_c" "C" 0 "c", -1), (mkMet "b_c" "N" 0 "c", 1)]⟩

/-- Mass-fixable reaction: H2 to H, one hydrogen short on the product side. -/
def rxnMassFix : Rxn := ⟨"R2w", [(mkMet "a_c" "H2" 0 "c", -1), (mkMet "b_c" "H" 0 "c", 1)]⟩

/-- Charge-imbalanced, mass-balanced reaction: neutral H to H with charge 1. -/
def rxnChargeCex : Rxn := ⟨"R2", [(mkMet "a_c" "H" 0 "c", -1), (mkMet "b_c" "H" 1 "c", 1)]⟩

/-- Transport reaction spanning compartments c and e, charge imbalanced. -/
def rxnTransport : Rxn := ⟨"R3", [(mkMet "a_c" "H" 0 "c", -1), (mkMet "b_e" "H" 1 "e", 1)]⟩

/-- Single-metabolite (boundary) reaction. -/
def rxnSingle : Rxn := ⟨"R3b", [(mkMet "a_c" "H" 1 "c", -1)]⟩

/-- Reaction with a missing formula on one metabolite and an O-imbalanced
remainder. -/
def rxnMiss4 : Rxn :=
  ⟨"R4", [(mkMetNF "x_c" "c", -1), (mkMet "b_c" "C" 0 "c", -1), (mkMet "d_c" "CO2" 0 "c", 1)]⟩

/-- Reaction exhibiting the sign convention: two H consumed, one produced. -/
def rxnSign : Rxn := ⟨"R6", [(mkMet "a_c" "H" 0 "c", -2), (mkMet "b_c" "H" 0 "c", 1)]⟩

/-- Reaction whose H imbalance is 1/200 away from twice its O imbalance. -/
def rxnWater : Rxn :=
  ⟨"R7", [(mkMet "a_c" "O" 0 "c", -1), (mkMet "b_c" "H" 0 "c", -(399/200 : Rat))]⟩

/-- Reaction whose only imbalance is an H imbalance of 1/200, within the
0.01 tolerance. -/
def rxnTiny : Rxn :=
  ⟨"R8", [(mkMet "a_c" "H" 0 "c", -1), (mkMet "b_c" "H" 0 "c", (199/200 : Rat))]⟩

/-- Reaction with a missing formula and a balanced charge. -/
def rxnMiss9 : Rxn := ⟨"RX1", [(mkMetNF "x_c" "c", -1), (mkMet "b_c" "C" 0 "c", 1)]⟩

/-- Reaction with an H imbalance of 5, above the standalone fixer's limit. -/
def rxnBigH : Rxn := ⟨"R10", [(mkMet "a_c" "H5" 0 "c", -1), (mkMet "b_c" "C" 0 "c", 1)]⟩

/-- Exactly balanced H2-to-H2 reaction. -/
def rxnExact : Rxn := ⟨"R8w", [(mkMet "a_c" "H2" 0 "c", -1), (mkMet "b_c" "H2" 0 "c", 1)]⟩

/-- Single-metabolite (exchange) reaction consuming one water, with a
hydrogen imbalance of 2. -/
def rxnExchange1 : Rxn := ⟨"EX_h2o", [(mkMet "h2o_c" "H2O" 0 "c", -1)]⟩

/-- Transport reaction spanning compartments c and e with a hydrogen
imbalance of 1. -/
def rxnTransportH : Rxn :=
  ⟨"R3t", [(mkMet "a_c" "H2" 0 "c", -1), (mkMet "b_e" "H" 0 "e", 1)]⟩

/-- Reaction with a missing formula on one metabolite and a charge
imbalance of 1. -/
def rxnMissCharge : Rxn :=
  ⟨"R4c", [(mkMetNF "x_c" "c", -1), (mkMet "b_c" "C" 1 "c", 1)]⟩

theorem le_rmax_left (a b : Rat) : a ≤ rmax a b := by
  unfold rmax
  split
  next h => exact h
  next h => exact le_refl a

theorem le_rmax_right (a b : Rat) : b ≤ rmax a b := by
  unfold rmax
  split
  next h => exact le_refl b
  next h => exact le_of_lt (not_le.mp h)

theorem rmax_lt_iff {a b t : Rat} : rmax a b < t ↔ a < t ∧ b < t := by
  unfold rmax
  split
  next h =>
    exact ⟨fun ht => ⟨lt_of_le_of_lt h ht, ht⟩, And.right⟩
  next h =>
    exact ⟨fun ht => ⟨ht, lt_of_le_of_lt (le_of_lt (not_le.mp h)) ht⟩, And.left⟩

theorem maxAbsVal_cons (q : String × Rat) (rest : List (String × Rat)) :
    BalanceModel.maxAbsVal (q :: rest) = rmax (rabs q.2) (BalanceModel.maxAbsVal rest) := rfl

theorem mem_le_maxAbsVal {l : List (String × Rat)} {p : String × Rat} (hp : p ∈ l) :
    rabs p.2 ≤ BalanceModel.maxAbsVal l := by
  induction l with
  | nil => cases hp
  | cons q rest ih =>
    rcases List.mem_cons.mp hp with h | h
    · rw [maxAbsVal_cons, h]
      exact le_rmax_left _ _
    · rw [maxAbsVal_cons]
      exact le_trans (ih h) (le_rmax_right _ _)

theorem maxAbsVal_lt_iff {l : List (String × Rat)} {t : Rat} (ht : 0 < t) :
    BalanceModel.maxAbsVal l < t ↔ ∀ p ∈ l, rabs p.2 < t := by
  induction l with
  | nil => simpa [BalanceModel.maxAbsVal] using ht
  | cons q rest ih =>
    rw [maxAbsVal_cons, rmax_lt_iff, ih]
    simp [List.forall_mem_cons]

theorem addMet_not_mem {l : List (Metabolite × Rat)} {m : Metabolite} {d : Rat}
    (h : m ∉ l.map Prod.fst) : addMet l m d = l ++ [(m, d)] := by
  induction l with
  | nil => rfl
  | cons p rest ih =>
    simp only [List.map_cons, List.mem_cons, not_or] at h
    obtain ⟨m', c⟩ := p
    simp only [addMet]
    rw [if_neg (fun e => h.1 e.symm), ih h.2]
    rfl

theorem foldl_addMet_append {l acc : List (Metabolite × Rat)}
    (hnd : (l.map Prod.fst).Nodup)
    (hdisj : ∀ k ∈ l.map Prod.fst, k ∉ acc.map Prod.fst) :
    l.foldl (fun a p => addMet a p.1 p.2) acc = acc ++ l := by
  induction l generalizing acc with
  | nil => simp
  | cons p rest ih =>
    simp only [List.map_cons, List.nodup_cons] at hnd
    simp only [List.foldl_cons]
    rw [addMet_not_mem (hdisj p.1 (by simp))]
    rw [ih hnd.2]
    · simp
    · intro k hk
      simp only [List.map_append, List.mem_append, List.map_cons, List.map_nil, not_or]
      refine ⟨hdisj k (by simp [hk]), ?_⟩
      simp only [List.mem_singleton]
      intro hke
      exact hnd.1 (hke ▸ hk)

theorem restoreMets_eq {l : List (Metabolite × Rat)} (h : (l.map Prod.fst).Nodup) :
    restoreMets l = l := by
  unfold restoreMets
  rw [foldl_addMet_append h (by simp)]
  simp

theorem fix_proton_balance_false {aM : List Metabolite} {r r' : Rxn}
    {eb : List (String × Rat)}
    (h : BalanceModel.fix_proton_balance aM r eb = (r', false)) : r' = r := by
  unfold BalanceModel.fix_proton_balance at h
  split at h
  · simp at h
  · split at h
    · simp at h
    · simp at h
      exact h.symm

theorem fix_water_balance_false {aM : List Metabolite} {r r' : Rxn}
    {eb : List (String × Rat)}
    (h : BalanceModel.fix_water_balance aM r eb = (r', false)) : r' = r := by
  unfold BalanceModel.fix_water_balance at h
  split at h
  · simp at h
  · split at h
    · simp at h
      exact h.symm
    · split at h
      · simp at h
      · simp at h
        exact h.symm

theorem massStep1_snd {aM : List Metabolite} {r : Rxn} {eb : List (String × Rat)}
    (h : eb = BalanceModel.calculate_mass_balance r) :
    (BalanceModel.massStep1 aM r eb).2 =
      BalanceModel.calculate_mass_balance (BalanceModel.massStep1 aM r eb).1 := by
  unfold BalanceModel.massStep1
  split
  · rcases hfp : BalanceModel.fix_proton_balance aM r eb with ⟨r1, b⟩
    cases b
    · have hr : r1 = r := fix_proton_balance_false hfp
      simp [hfp, hr, h]
    · simp [hfp]
  · simpa using h

theorem massStep2_snd {aM : List Metabolite} {rc : Rxn × List (String × Rat)}
    (h : rc.2 = BalanceModel.calculate_mass_balance rc.1) :
    (BalanceModel.massStep2 aM rc).2 =
      BalanceModel.calculate_mass_balance (BalanceModel.massStep2 aM rc).1 := by
  unfold BalanceModel.massStep2
  split
  · rcases hfw : BalanceModel.fix_water_balance aM rc.1 rc.2 with ⟨r2, b⟩
    cases b
    · have hr : r2 = rc.1 := fix_water_balance_false hfw
      simp [hfw, hr, h]
    · simp [hfw]
  · simpa using h

theorem foldl_add_shift {α : Type} (g : α → Rat) (init : Rat) (l : List α) :
    l.foldl (fun a x => a + g x) init = init + (l.map g).sum := by
  induction l generalizing init with
  | nil => simp
  | cons x rest ih =>
    simp only [List.foldl_cons, List.map_cons, List.sum_cons, ih]
    ring

theorem chargeSumMets_eq (mets : List (Metabolite × Rat)) :
    BalanceModel.chargeSumMets mets =
      (mets.map (fun p => p.2 * ((p.1.charge.getD 0 : Int) : Rat))).sum := by
  unfold BalanceModel.chargeSumMets
  rw [foldl_add_shift]
  simp

theorem map_sum_addMet (g : Metabolite → Rat) (l : List (Metabolite × Rat))
    (m : Metabolite) (d : Rat) :
    ((addMet l m d).map (fun p => p.2 * g p.1)).sum =
      (l.map (fun p => p.2 * g p.1)).sum + d * g m := by
  induction l with
  | nil => simp [addMet]
  | cons p rest ih =>
    obtain ⟨m', c⟩ := p
    by_cases hpm : m' = m
    · subst hpm
      have he : addMet ((m', c) :: rest) m' d = (m', c + d) :: rest := by
        simp [addMet]
      rw [he]
      simp only [List.map_cons, List.sum_cons]
      ring
    · have he : addMet ((m', c) :: rest) m d = (m', c) :: addMet rest m d := by
        simp [addMet, hpm]
      rw [he]
      simp only [List.map_cons, List.sum_cons, ih]
      ring

theorem chargeSumMets_addMet (l : List (Metabolite × Rat)) (m : Metabolite) (d : Rat) :
    BalanceModel.chargeSumMets (addMet l m d) =
      BalanceModel.chargeSumMets l + d * ((m.charge.getD 0 : Int) : Rat) := by
  rw [chargeSumMets_eq, chargeSumMets_eq]
  have := map_sum_addMet (fun mm => ((mm.charge.getD 0 : Int) : Rat)) l m d
  simpa using this

theorem balance_reaction_mass_ok_false {aM : List Metabolite} {r : Rxn}
    (h : (BalanceModel.balance_reaction_mass aM r).ok = false) :
    (BalanceModel.balance_reaction_mass aM r).rxn.mets = restoreMets r.mets := by
  unfold BalanceModel.balance_reaction_mass at h ⊢
  split_ifs at h ⊢
  rfl

theorem balance_reaction_charge_ok_false {aM : List Metabolite} {r : Rxn}
    (h : (BalanceModel.balance_reaction_charge aM r).ok = false) :
    (BalanceModel.balance_reaction_charge aM r).rxn = r := by
  unfold BalanceModel.balance_reaction_charge at h ⊢
  split_ifs at h ⊢
  rcases hfp : BalanceModel.findProton aM (BalanceModel.mainCompFirst r) with _ | p
  · simp [hfp]
  · simp [hfp] at h

theorem balance_reaction_mass_balanced {aM : List Metabolite} {r : Rxn}
    (hb : BalanceModel.maxAbsVal (BalanceModel.calculate_mass_balance r) < 1/100) :
    (BalanceModel.balance_reaction_mass aM r).rxn = r := by
  unfold BalanceModel.balance_reaction_mass
  split_ifs with h1
  · rfl
  · rfl

theorem balance_reaction_charge_balanced {aM : List Metabolite} {r : Rxn}
    (hb : rabs (BalanceModel.calculate_charge_balance r) < 1/100) :
    (BalanceModel.balance_reaction_charge aM r).rxn = r := by
  unfold BalanceModel.balance_reaction_charge
  split_ifs with h1
  · rfl
  · rfl

theorem balance_reaction_mass_exempt {aM : List Metabolite} {r : Rxn}
    (he : (BalanceModel.is_exchange_reaction r || BalanceModel.is_transport_reaction r) = true) :
    BalanceModel.balance_reaction_mass aM r = ⟨r, true, false⟩ := by
  unfold BalanceModel.balance_reaction_mass
  rw [if_pos he]

theorem analyze_h_can_fix (r : Rxn) :
    (ProtonFix.analyze_h_balance r).can_fix_with_proton =
      (decide (0 < rabs ((ProtonFix.analyze_h_balance r).h_imbalance)) &&
       decide (rabs ((ProtonFix.analyze_h_balance r).h_imbalance) ≤ 3)) := rfl

theorem analyze_h_protons_needed (r : Rxn) :
    (ProtonFix.analyze_h_balance r).protons_needed =
      (ProtonFix.analyze_h_balance r).h_imbalance := rfl

/-- C1: for every reaction whose attempt_fix outcome is unfixable (the mass
fix, or the charge-only fix, returns False), the metabolite-to-coefficient
mapping after the attempt is exactly the mapping before it: the mass path
replays the saved original mapping, the charge path never edited, so no
partial edit remains on failure.  (Keys of a reaction mapping are distinct,
as they are in a Python dict.) -/
theorem claim_C1_rollback (allMets : List Metabolite) (r : Rxn)
    (hnd : (r.mets.map Prod.fst).Nodup) :
    ((BalanceModel.balance_reaction_mass allMets r).ok = false →
      (BalanceModel.balance_reaction_mass allMets r).rxn.mets = r.mets) ∧
    ((BalanceModel.balance_reaction_charge allMets r).ok = false →
      (BalanceModel.balance_reaction_charge allMets r).rxn.mets = r.mets) := by
  constructor
  · intro hok
    rw [balance_reaction_mass_ok_false hok, restoreMets_eq hnd]
  · intro hok
    rw [balance_reaction_charge_ok_false hok]

/-- Witness for C1: a C-to-N reaction is unfixable and its mapping is
untouched by the failed attempt. -/
theorem claim_C1_rollback_witness :
    (BalanceModel.balance_reaction_mass [] rxnUnfix).ok = false ∧
    (BalanceModel.balance_reaction_mass [] rxnUnfix).rxn.mets = rxnUnfix.mets :=
  ⟨by with_unfolding_all decide,
   (claim_C1_rollback [] rxnUnfix (by with_unfolding_all decide)).1
     (by with_unfolding_all decide)⟩

theorem rabs_pos {q : Rat} (h : q ≠ 0) : 0 < rabs q := by
  unfold rabs
  split
  next hlt => linarith
  next hlt => exact (not_lt.mp hlt).lt_of_ne (Ne.symm h)

/-- Counterexample to C3: the charge-only fix path edits a transport
reaction (balance_reaction_charge only tests is_exchange_reaction), and
the standalone proton fixer edits both a single-metabolite reaction (one
water consumed, H imbalance 2) and a transport reaction (H imbalance 1):
neither structural exemption is respected outside the mass path. -/
theorem claim_C3_counterexample :
    BalanceModel.is_transport_reaction rxnTransport = true ∧
    (BalanceModel.balance_reaction_charge [protonC] rxnTransport).rxn.mets ≠
      rxnTransport.mets ∧
    rxnExchange1.mets.length = 1 ∧
    (ProtonFix.fixProtonStep protonC rxnExchange1).1.mets ≠ rxnExchange1.mets ∧
    BalanceModel.is_transport_reaction rxnTransportH = true ∧
    (ProtonFix.fixProtonStep protonC rxnTransportH).1.mets ≠ rxnTransportH.mets := by
  with_unfolding_all decide

/-- C3 as amended: the mass-fix path leaves both multi-compartment
(transport) reactions and single-metabolite reactions unchanged regardless
of balance status; the charge-fix path leaves single-metabolite reactions
unchanged but does not exempt transport reactions; and the standalone
proton fixer of fix_proton_balance.py applies no structural exemption at
all — on any reaction with all formulas present and a nonzero hydrogen
imbalance of absolute value at most 3, single-metabolite and transport
reactions included, it adjusts the proton coefficient. -/
theorem claim_C3_exemption_amended (allMets : List Metabolite)
    (proton : Metabolite) (r : Rxn) :
    ((BalanceModel.is_transport_reaction r = true ∨ r.mets.length = 1) →
      (BalanceModel.balance_reaction_mass allMets r).rxn = r) ∧
    (r.mets.length = 1 →
      (BalanceModel.balance_reaction_charge allMets r).rxn = r) ∧
    ((ProtonFix.analyze_h_balance r).missing_formulas = [] →
      (ProtonFix.analyze_h_balance r).h_imbalance ≠ 0 →
      rabs ((ProtonFix.analyze_h_balance r).h_imbalance) ≤ 3 →
      (ProtonFix.fixProtonStep proton r).1.mets =
        addMet r.mets proton
          (ProtonFix.protonDelta (ProtonFix.analyze_h_balance r).protons_needed)) := by
  refine ⟨?_, ?_, ?_⟩
  · intro h
    have he : (BalanceModel.is_exchange_reaction r ||
        BalanceModel.is_transport_reaction r) = true := by
      rcases h with h | h
      · simp [h]
      · simp [BalanceModel.is_exchange_reaction, h]
    rw [balance_reaction_mass_exempt he]
  · intro h
    have he : BalanceModel.is_exchange_reaction r = true := by
      simp [BalanceModel.is_exchange_reaction, h]
    unfold BalanceModel.balance_reaction_charge
    rw [if_pos he]
  · intro hmiss hne hle
    have hm : ¬ ((!(ProtonFix.analyze_h_balance r).missing_formulas.isEmpty) = true) := by
      rw [hmiss]
      simp
    have hc : ((ProtonFix.analyze_h_balance r).can_fix_with_proton &&
        decide (0 < rabs (ProtonFix.analyze_h_balance r).protons_needed)) = true := by
      rw [analyze_h_can_fix, analyze_h_protons_needed]
      simp only [Bool.and_eq_true, decide_eq_true_eq]
      exact ⟨⟨rabs_pos hne, hle⟩, rabs_pos hne⟩
    unfold ProtonFix.fixProtonStep
    rw [if_neg hm, if_pos hc]

/-- Witness for the amended C3: the transport reaction is untouched by the
mass path, the single-metabolite reaction by the charge path, and the
standalone fixer edits the single-metabolite water reaction with no
exemption test. -/
theorem claim_C3_exemption_amended_witness :
    (BalanceModel.balance_reaction_mass [protonC] rxnTransport).rxn = rxnTransport ∧
    (BalanceModel.balance_reaction_charge [protonC] rxnSingle).rxn = rxnSingle ∧
    (ProtonFix.fixProtonStep protonC rxnExchange1).1.mets =
      addMet rxnExchange1.mets protonC
        (ProtonFix.protonDelta (ProtonFix.analyze_h_balance rxnExchange1).protons_needed) :=
  ⟨(claim_C3_exemption_amended [protonC] protonC rxnTransport).1
      (Or.inl (by with_unfolding_all decide)),
   (claim_C3_exemption_amended [protonC] protonC rxnSingle).2.1
      (by with_unfolding_all decide),
   (claim_C3_exemption_amended [protonC] protonC rxnExchange1).2.2
      (by with_unfolding_all decide) (by with_unfolding_all decide)
      (by with_unfolding_all decide)⟩

/-- Counterexample to C8: a reaction whose only imbalance is an H imbalance
of 1/200 — within the 0.01 tolerance, hence "already balanced" — is still
edited by the standalone proton fixer, whose guard is |H| > 0 rather than
the tolerance. -/
theorem claim_C8_counterexample :
    BalanceModel.maxAbsVal (BalanceModel.calculate_mass_balance rxnTiny) < 1/100 ∧
    rabs (BalanceModel.calculate_charge_balance rxnTiny) < 1/100 ∧
    (ProtonFix.fixProtonStep protonC rxnTiny).1 ≠ rxnTiny := by
  with_unfolding_all decide

/-- C8 as amended: the model balancer's two fix passes perform no edit on a
reaction already within the 0.01 tolerance, and the standalone proton
fixer performs no edit on a reaction whose hydrogen imbalance is exactly
zero; a nonzero hydrogen imbalance inside the tolerance is still edited by
the standalone fixer. -/
theorem claim_C8_idempotence_amended (allMets : List Metabolite) (proton : Metabolite)
    (r : Rxn) :
    (BalanceModel.maxAbsVal (BalanceModel.calculate_mass_balance r) < 1/100 →
      (BalanceModel.balance_reaction_mass allMets r).rxn = r) ∧
    (rabs (BalanceModel.calculate_charge_balance r) < 1/100 →
      (BalanceModel.balance_reaction_charge allMets r).rxn = r) ∧
    ((ProtonFix.analyze_h_balance r).h_imbalance = 0 →
      (ProtonFix.fixProtonStep proton r).1 = r) := by
  refine ⟨fun hb => balance_reaction_mass_balanced hb,
          fun hb => balance_reaction_charge_balanced hb, fun hz => ?_⟩
  unfold ProtonFix.fixProtonStep
  split_ifs with h1 h2 h3
  · rfl
  · exfalso
    rw [analyze_h_can_fix, analyze_h_protons_needed, hz] at h2
    have : rabs 0 = 0 := rfl
    rw [this] at h2
    simp at h2
  · rfl
  · rfl

/-- Witness for the amended C8: a perfectly balanced H2-to-H2 reaction is
untouched by all three passes. -/
theorem claim_C8_idempotence_amended_witness :
    (BalanceModel.balance_reaction_mass [protonC] rxnExact).rxn = rxnExact ∧
    (BalanceModel.balance_reaction_charge [protonC] rxnExact).rxn = rxnExact ∧
    (ProtonFix.fixProtonStep protonC rxnExact).1 = rxnExact :=
  ⟨(claim_C8_idempotence_amended [protonC] protonC rxnExact).1
      (by with_unfolding_all decide),
   (claim_C8_idempotence_amended [protonC] protonC rxnExact).2.1
      (by with_unfolding_all decide),
   (claim_C8_idempotence_amended [protonC] protonC rxnExact).2.2
      (by with_unfolding_all decide)⟩

/-- C10: the standalone proton fixer adjusts a reaction only when all its
formulas are present and its hydrogen imbalance is nonzero with absolute
value at most 3; a reaction with all formulas present whose absolute
hydrogen imbalance exceeds 3 keeps its mapping unchanged and is listed for
manual review. -/
theorem claim_C10_proton_fixer_limit (proton : Metabolite) (r : Rxn) :
    (¬ ((ProtonFix.analyze_h_balance r).missing_formulas = [] ∧
        (ProtonFix.analyze_h_balance r).h_imbalance ≠ 0 ∧
        rabs ((ProtonFix.analyze_h_balance r).h_imbalance) ≤ 3) →
      (ProtonFix.fixProtonStep proton r).1 = r) ∧
    ((ProtonFix.analyze_h_balance r).missing_formulas = [] →
      3 < rabs ((ProtonFix.analyze_h_balance r).h_imbalance) →
      (ProtonFix.fixProtonStep proton r).1 = r ∧
      (ProtonFix.fixProtonStep proton r).2 =
        some (r.id, (ProtonFix.analyze_h_balance r).h_imbalance)) := by
  constructor
  · intro hng
    unfold ProtonFix.fixProtonStep
    split_ifs with h1 h2 h3
    · rfl
    · exfalso
      rw [analyze_h_can_fix, analyze_h_protons_needed] at h2
      simp only [Bool.and_eq_true, decide_eq_true_eq] at h2
      apply hng
      refine ⟨?_, ?_, h2.1.2⟩
      · simp only [Bool.not_eq_true] at h1
        simpa [List.isEmpty_iff] using h1
      · intro hz
        rw [hz] at h2
        have : rabs 0 = 0 := rfl
        rw [this] at h2
        exact absurd h2.1.1 (by norm_num)
    · rfl
    · rfl
  · intro hmiss hbig
    unfold ProtonFix.fixProtonStep
    split_ifs with h1 h2
    · exfalso
      rw [hmiss] at h1
      simp at h1
    · exfalso
      rw [analyze_h_can_fix] at h2
      simp only [Bool.and_eq_true, decide_eq_true_eq] at h2
      exact absurd h2.1.2 (not_le.mpr hbig)
    · exact ⟨rfl, rfl⟩

/-- Weighted count of element e over an element table, as a sum over its
entries; on tables with distinct keys (every parse_formula output) it
agrees with the dict value countOf. -/
def elemW (elems : List (String × Nat)) (e : String) : Rat :=
  (elems.map (fun q => if q.1 = e then (q.2 : Rat) else 0)).sum

/-- Formula string that get_metabolite_formula resolved for a metabolite. -/
def resolvedFormula (m : Metabolite) : String :=
  (BalanceModel.get_metabolite_formula m).getD ""

theorem elemW_cons (k : String) (n : Nat) (rest : List (String × Nat)) (e : String) :
    elemW ((k, n) :: rest) e = (if k = e then (n : Rat) else 0) + elemW rest e := by
  simp [elemW]

theorem lookupQ_addQ (l : List (String × Rat)) (k : String) (v : Rat) (e : String) :
    lookupQ (addQ l k v) e = lookupQ l e + (if k = e then v else 0) := by
  induction l with
  | nil =>
    by_cases h : k = e <;> simp [addQ, lookupQ, h]
  | cons p rest ih =>
    obtain ⟨k', v'⟩ := p
    by_cases h1 : k' = k
    · subst h1
      by_cases h2 : k' = e <;> simp [addQ, lookupQ, h2]
    · by_cases h2 : k' = e
      · subst h2
        have h3 : ¬ k = k' := fun he => h1 he.symm
        simp [addQ, lookupQ, h1, h3]
      · simp [addQ, lookupQ, h1, h2, ih]

theorem lookupQ_accumFormula (elems : List (String × Nat)) (acc : List (String × Rat))
    (c : Rat) (e : String) :
    lookupQ (BalanceModel.accumFormula acc c elems) e =
      lookupQ acc e + c * elemW elems e := by
  induction elems generalizing acc with
  | nil => simp [BalanceModel.accumFormula, elemW]
  | cons q rest ih =>
    simp only [BalanceModel.accumFormula]
    rw [ih, lookupQ_addQ, elemW_cons]
    by_cases h : q.1 = e <;> simp [h] <;> ring

theorem massBalanceAux_lookup (mets : List (Metabolite × Rat))
    (acc : List (String × Rat)) (e : String)
    (hres : ∀ p ∈ mets, truthy (BalanceModel.get_metabolite_formula p.1) = true) :
    lookupQ (BalanceModel.massBalanceAux acc mets) e =
      lookupQ acc e +
        (mets.map (fun p =>
          p.2 * elemW (BalanceModel.parse_formula (resolvedFormula p.1)) e)).sum := by
  induction mets generalizing acc with
  | nil => simp [BalanceModel.massBalanceAux]
  | cons p rest ih =>
    obtain ⟨m, c⟩ := p
    have hm := hres (m, c) (by simp)
    rcases hgm : BalanceModel.get_metabolite_formula m with _ | f
    · rw [hgm] at hm
      simp [truthy] at hm
    · rw [hgm] at hm
      have hf : ¬ f = "" := by simpa [truthy] using hm
      simp only [BalanceModel.massBalanceAux, hgm]
      rw [if_neg hf]
      rw [ih _ (fun q hq => hres q (List.mem_cons_of_mem _ hq))]
      rw [lookupQ_accumFormula]
      have hrf : resolvedFormula m = f := by
        unfold resolvedFormula
        rw [hgm]
        rfl
      rw [← hrf]
      simp only [List.map_cons, List.sum_cons]
      ring

theorem mem_keys_addCount {l : List (String × Nat)} {e x : String} {n : Nat}
    (h : x ∈ (addCount l e n).map Prod.fst) : x ∈ l.map Prod.fst ∨ x = e := by
  induction l with
  | nil =>
    simp [addCount] at h
    exact Or.inr h
  | cons p rest ih =>
    obtain ⟨e', n'⟩ := p
    by_cases he : e' = e
    · subst he
      simp [addCount] at h
      exact Or.inl (by simpa using h)
    · simp only [addCount, if_neg he, List.map_cons, List.mem_cons] at h
      rcases h with h | h
      · exact Or.inl (by simp [h])
      · rcases ih h with h' | h'
        · exact Or.inl (List.mem_cons_of_mem _ h')
        · exact Or.inr h'

theorem nodup_keys_addCount {l : List (String × Nat)} {e : String} {n : Nat}
    (h : (l.map Prod.fst).Nodup) : ((addCount l e n).map Prod.fst).Nodup := by
  induction l with
  | nil => simp [addCount]
  | cons p rest ih =>
    obtain ⟨e', n'⟩ := p
    by_cases he : e' = e
    · subst he
      have heq : addCount ((e', n') :: rest) e' n = (e', n' + n) :: rest := by
        simp [addCount]
      rw [heq]
      simpa using h
    · simp only [List.map_cons, List.nodup_cons] at h
      simp only [addCount, if_neg he, List.map_cons, List.nodup_cons]
      refine ⟨?_, ih h.2⟩
      intro hmem
      rcases mem_keys_addCount hmem with h' | h'
      · exact h.1 h'
      · exact he h'

theorem nodup_keys_flushTok {acc : List (String × Nat)}
    {pending : Option (String × Option Nat)} (h : (acc.map Prod.fst).Nodup) :
    ((flushTok acc pending).map Prod.fst).Nodup := by
  match pending with
  | none => exact h
  | some (sym, none) => exact nodup_keys_addCount h
  | some (sym, some n) => exact nodup_keys_addCount h

theorem nodup_keys_scanFormulaAux (cs : List Char) :
    ∀ acc pending, (acc.map Prod.fst).Nodup →
      ((scanFormulaAux acc pending cs).map Prod.fst).Nodup := by
  induction cs with
  | nil =>
    intro acc pending h
    exact nodup_keys_flushTok h
  | cons c rest ih =>
    intro acc pending h
    simp only [scanFormulaAux]
    by_cases h1 : c.isUpper
    · simp only [if_pos h1]
      exact ih _ _ (nodup_keys_flushTok h)
    · simp only [if_neg h1]
      by_cases h2 : c.isLower
      · simp only [if_pos h2]
        match pending with
        | none => exact ih _ _ (nodup_keys_flushTok h)
        | some (sym, none) =>
          by_cases h4 : sym.toList.length = 1
          · simp only [if_pos h4]
            exact ih _ _ h
          · simp only [if_neg h4]
            exact ih _ _ (nodup_keys_flushTok h)
        | some (sym, some n) => exact ih _ _ (nodup_keys_flushTok h)
      · simp only [if_neg h2]
        by_cases h3 : c.isDigit
        · simp only [if_pos h3]
          match pending with
          | none => exact ih _ _ h
          | some (sym, d) => exact ih _ _ h
        · simp only [if_neg h3]
          exact ih _ _ (nodup_keys_flushTok h)

theorem nodup_keys_parse_formula (f : String) :
    ((BalanceModel.parse_formula f).map Prod.fst).Nodup := by
  unfold BalanceModel.parse_formula
  split_ifs
  · simp
  · exact nodup_keys_scanFormulaAux _ [] none (by simp)

theorem elemW_eq_zero_of_not_mem {l : List (String × Nat)} {e : String}
    (h : e ∉ l.map Prod.fst) : elemW l e = 0 := by
  induction l with
  | nil => simp [elemW]
  | cons p rest ih =>
    obtain ⟨k, n⟩ := p
    simp only [List.map_cons, List.mem_cons, not_or] at h
    rw [elemW_cons, if_neg (fun hh => h.1 hh.symm), ih h.2]
    simp

theorem countOf_eq_elemW {l : List (String × Nat)} {e : String}
    (h : (l.map Prod.fst).Nodup) : (countOf l e : Rat) = elemW l e := by
  induction l with
  | nil => simp [countOf, elemW]
  | cons p rest ih =>
    obtain ⟨k, n⟩ := p
    simp only [List.map_cons, List.nodup_cons] at h
    rw [elemW_cons]
    by_cases hk : k = e
    · subst hk
      simp only [countOf, if_pos rfl]
      rw [elemW_eq_zero_of_not_mem h.1]
      simp
    · simp only [countOf, if_neg hk]
      rw [ih h.2]
      simp

theorem sum_map_filter_split (l : List (Metabolite × Rat)) (g : Metabolite × Rat → Rat) :
    (l.map g).sum = ((l.filter (fun p => decide (p.2 < 0))).map g).sum +
      ((l.filter (fun p => decide (0 ≤ p.2))).map g).sum := by
  induction l with
  | nil => simp
  | cons p rest ih =>
    by_cases hp : p.2 < 0
    · have hnp : ¬ (0 ≤ p.2) := not_le.mpr hp
      simp only [List.map_cons, List.sum_cons, List.filter_cons,
        decide_eq_true hp, decide_eq_false hnp, if_true, if_false, ih]
      simp
      ring
    · have hnp : 0 ≤ p.2 := not_lt.mp hp
      simp only [List.map_cons, List.sum_cons, List.filter_cons,
        decide_eq_true hnp, decide_eq_false hp, if_true, if_false, ih]
      simp
      ring

theorem rabs_of_neg {q : Rat} (h : q < 0) : rabs q = -q := by
  unfold rabs
  rw [if_pos h]

theorem rabs_of_nonneg {q : Rat} (h : 0 ≤ q) : rabs q = q := by
  unfold rabs
  rw [if_neg (not_lt.mpr h)]

theorem map_sum_neg_side (l : List (Metabolite × Rat)) (w : Metabolite → Rat)
    (hneg : ∀ p ∈ l, p.2 < 0) :
    (l.map (fun p => p.2 * w p.1)).sum =
      -((l.map (fun p => rabs p.2 * w p.1)).sum) := by
  induction l with
  | nil => simp
  | cons p rest ih =>
    have hp := rabs_of_neg (hneg p (by simp))
    simp only [List.map_cons, List.sum_cons,
      ih (fun q hq => hneg q (List.mem_cons_of_mem _ hq)), hp]
    ring

theorem map_sum_pos_side (l : List (Metabolite × Rat)) (w : Metabolite → Rat)
    (hpos : ∀ p ∈ l, 0 ≤ p.2) :
    (l.map (fun p => p.2 * w p.1)).sum =
      (l.map (fun p => rabs p.2 * w p.1)).sum := by
  induction l with
  | nil => simp
  | cons p rest ih =>
    have hp := rabs_of_nonneg (hpos p (by simp))
    simp only [List.map_cons, List.sum_cons,
      ih (fun q hq => hpos q (List.mem_cons_of_mem _ hq)), hp]

theorem mem_reactantsOf_neg {r : Rxn} {p : Metabolite × Rat}
    (hp : p ∈ reactantsOf r) : p.2 < 0 := by
  have := (List.mem_filter.mp hp).2
  exact of_decide_eq_true this

theorem mem_productsOf_nonneg {r : Rxn} {p : Metabolite × Rat}
    (hp : p ∈ productsOf r) : 0 ≤ p.2 := by
  have := (List.mem_filter.mp hp).2
  exact of_decide_eq_true this

theorem reactantsOf_eq (r : Rxn) :
    r.mets.filter (fun p => decide (p.2 < 0)) = reactantsOf r := rfl

theorem productsOf_eq (r : Rxn) :
    r.mets.filter (fun p => decide (0 ≤ p.2)) = productsOf r := rfl

/-- Element balance in the orientation the claim states it: the sum over
reactants of abs(coefficient) times the parsed element count, minus the
same sum over products. -/
def claimElementBalance (r : Rxn) (e : String) : Rat :=
  ((reactantsOf r).map (fun p =>
    rabs p.2 * (countOf (BalanceModel.parse_formula (resolvedFormula p.1)) e : Rat))).sum -
  ((productsOf r).map (fun p =>
    rabs p.2 * (countOf (BalanceModel.parse_formula (resolvedFormula p.1)) e : Rat))).sum

/-- Counterexample to C6: on the reaction 2 H to 1 H the code's
calculate_mass_balance gives −1 for H (products minus reactants), while
the claimed formula, reactants minus products, gives +1 — the sign
convention in the claim is the negation of the implemented one. -/
theorem claim_C6_counterexample :
    lookupQ (BalanceModel.calculate_mass_balance rxnSign) "H" = -1 ∧
    claimElementBalance rxnSign "H" = 1 := by
  with_unfolding_all decide

/-- C6 as amended: with fully resolved formulas, calculate_mass_balance
gives, per element, the sum over products of abs(coefficient) times count
minus the same sum over reactants (the negation of the claimed
orientation), calculate_charge_balance gives the matching
products-minus-reactants charge sum with a missing charge read as 0, and
the reaction is mass-balanced (imbalance maximum below the 0.01
tolerance) iff every element imbalance is below it in absolute value. -/
theorem claim_C6_sign_amended (r : Rxn) (e : String)
    (hres : ∀ p ∈ r.mets, truthy (BalanceModel.get_metabolite_formula p.1) = true) :
    lookupQ (BalanceModel.calculate_mass_balance r) e =
      ((productsOf r).map (fun p =>
        rabs p.2 * (countOf (BalanceModel.parse_formula (resolvedFormula p.1)) e : Rat))).sum -
      ((reactantsOf r).map (fun p =>
        rabs p.2 * (countOf (BalanceModel.parse_formula (resolvedFormula p.1)) e : Rat))).sum ∧
    BalanceModel.calculate_charge_balance r =
      ((productsOf r).map (fun p => rabs p.2 * ((p.1.charge.getD 0 : Int) : Rat))).sum -
      ((reactantsOf r).map (fun p => rabs p.2 * ((p.1.charge.getD 0 : Int) : Rat))).sum ∧
    (BalanceModel.maxAbsVal (BalanceModel.calculate_mass_balance r) < 1/100 ↔
      ∀ p ∈ BalanceModel.calculate_mass_balance r, rabs p.2 < 1/100) := by
  refine ⟨?_, ?_, maxAbsVal_lt_iff (by norm_num)⟩
  · have h1 := massBalanceAux_lookup r.mets [] e hres
    have h0 : lookupQ ([] : List (String × Rat)) e = 0 := rfl
    rw [h0, zero_add] at h1
    have hsplit := sum_map_filter_split r.mets
      (fun p => p.2 * elemW (BalanceModel.parse_formula (resolvedFormula p.1)) e)
    rw [reactantsOf_eq, productsOf_eq] at hsplit
    have hneg := map_sum_neg_side (reactantsOf r)
      (fun m => elemW (BalanceModel.parse_formula (resolvedFormula m)) e)
      (fun p hp => mem_reactantsOf_neg hp)
    have hpos := map_sum_pos_side (productsOf r)
      (fun m => elemW (BalanceModel.parse_formula (resolvedFormula m)) e)
      (fun p hp => mem_productsOf_nonneg hp)
    have hcp : (productsOf r).map (fun p =>
          rabs p.2 * (countOf (BalanceModel.parse_formula (resolvedFormula p.1)) e : Rat))
        = (productsOf r).map (fun p =>
          rabs p.2 * elemW (BalanceModel.parse_formula (resolvedFormula p.1)) e) := by
      apply List.map_congr_left
      intro a ha
      rw [countOf_eq_elemW (nodup_keys_parse_formula _)]
    have hcr : (reactantsOf r).map (fun p =>
          rabs p.2 * (countOf (BalanceModel.parse_formula (resolvedFormula p.1)) e : Rat))
        = (reactantsOf r).map (fun p =>
          rabs p.2 * elemW (BalanceModel.parse_formula (resolvedFormula p.1)) e) := by
      apply List.map_congr_left
      intro a ha
      rw [countOf_eq_elemW (nodup_keys_parse_formula _)]
    rw [hcp, hcr]
    show lookupQ (BalanceModel.massBalanceAux [] r.mets) e = _
    rw [h1, hsplit, hneg, hpos]
    ring
  · have h2 := chargeSumMets_eq r.mets
    have hsplit := sum_map_filter_split r.mets
      (fun p => p.2 * ((p.1.charge.getD 0 : Int) : Rat))
    rw [reactantsOf_eq, productsOf_eq] at hsplit
    have hneg := map_sum_neg_side (reactantsOf r)
      (fun m => ((m.charge.getD 0 : Int) : Rat))
      (fun p hp => mem_reactantsOf_neg hp)
    have hpos := map_sum_pos_side (productsOf r)
      (fun m => ((m.charge.getD 0 : Int) : Rat))
      (fun p hp => mem_productsOf_nonneg hp)
    show BalanceModel.chargeSumMets r.mets = _
    rw [h2, hsplit, hneg, hpos]
    ring

/-- Witness for the amended C6 at the 2 H to 1 H reaction and element H. -/
theorem claim_C6_sign_amended_witness :
    lookupQ (BalanceModel.calculate_mass_balance rxnSign) "H" =
      ((productsOf rxnSign).map (fun p =>
        rabs p.2 * (countOf (BalanceModel.parse_formula (resolvedFormula p.1)) "H" : Rat))).sum -
      ((reactantsOf rxnSign).map (fun p =>
        rabs p.2 * (countOf (BalanceModel.parse_formula (resolvedFormula p.1)) "H" : Rat))).sum ∧
    BalanceModel.calculate_charge_balance rxnSign =
      ((productsOf rxnSign).map (fun p => rabs p.2 * ((p.1.charge.getD 0 : Int) : Rat))).sum -
      ((reactantsOf rxnSign).map (fun p => rabs p.2 * ((p.1.charge.getD 0 : Int) : Rat))).sum ∧
    (BalanceModel.maxAbsVal (BalanceModel.calculate_mass_balance rxnSign) < 1/100 ↔
      ∀ p ∈ BalanceModel.calculate_mass_balance rxnSign, rabs p.2 < 1/100) :=
  claim_C6_sign_amended rxnSign "H" (by with_unfolding_all decide)

theorem balance_reaction_mass_fixed {aM : List Metabolite} {r : Rxn}
    (h : (BalanceModel.balance_reaction_mass aM r).reportedFixed = true) :
    (BalanceModel.balance_reaction_mass aM r).rxn =
      (BalanceModel.massStep2 aM
        (BalanceModel.massStep1 aM r (BalanceModel.calculate_mass_balance r))).1 ∧
    BalanceModel.maxAbsVal (BalanceModel.massStep2 aM
        (BalanceModel.massStep1 aM r (BalanceModel.calculate_mass_balance r))).2 < 1/100 := by
  unfold BalanceModel.balance_reaction_mass at h ⊢
  split_ifs at h ⊢ with h1 h2 h3
  exact ⟨rfl, h3⟩

theorem balance_reaction_charge_fixed {aM : List Metabolite} {r : Rxn}
    (h : (BalanceModel.balance_reaction_charge aM r).reportedFixed = true) :
    ∃ p, BalanceModel.findProton aM (BalanceModel.mainCompFirst r) = some p ∧
      (BalanceModel.balance_reaction_charge aM r).rxn =
        { r with mets := addMet r.mets p (-(BalanceModel.calculate_charge_balance r)) } := by
  unfold BalanceModel.balance_reaction_charge at h ⊢
  split_ifs at h ⊢ with h1 h2
  rcases hfp : BalanceModel.findProton aM (BalanceModel.mainCompFirst r) with _ | p
  · rw [hfp] at h
    simp at h
  · exact ⟨p, rfl, rfl⟩

/-- Counterexample to C2: a mass-balanced, charge-imbalanced reaction is
reported fixed by the charge-only path, yet recomputing the element
balance of the mutated reaction gives a hydrogen imbalance of magnitude 1,
far outside the tolerance — the inserted proton carries an H atom that the
charge path does not account for. -/
theorem claim_C2_counterexample :
    (BalanceModel.balance_reaction_charge [protonC] rxnChargeCex).reportedFixed = true ∧
    ¬ (rabs (lookupQ (BalanceModel.calculate_mass_balance
        (BalanceModel.balance_reaction_charge [protonC] rxnChargeCex).rxn) "H") < 1/100) := by
  with_unfolding_all decide

/-- C2 as amended: a reaction the mass-fix path reports as fixed has every
recomputed element imbalance within tolerance, and a reaction the
charge-only path reports as fixed has its recomputed charge balance equal
to zero provided every cpd00067 proton species carries charge 1; the mass
path does not re-check the charge balance, nor the charge path the element
balance. -/
theorem claim_C2_conservation_amended (allMets : List Metabolite) (r : Rxn) :
    ((BalanceModel.balance_reaction_mass allMets r).reportedFixed = true →
      ∀ p ∈ BalanceModel.calculate_mass_balance
          (BalanceModel.balance_reaction_mass allMets r).rxn,
        rabs p.2 < 1/100) ∧
    ((BalanceModel.balance_reaction_charge allMets r).reportedFixed = true →
      (∀ m ∈ allMets, startsWithStr "cpd00067" m.id = true → m.charge = some 1) →
      BalanceModel.calculate_charge_balance
        (BalanceModel.balance_reaction_charge allMets r).rxn = 0) := by
  constructor
  · intro hrf
    obtain ⟨hrxn, hlt⟩ := balance_reaction_mass_fixed hrf
    have hst1 := @massStep1_snd allMets r (BalanceModel.calculate_mass_balance r) rfl
    have hst2 := @massStep2_snd allMets
      (BalanceModel.massStep1 allMets r (BalanceModel.calculate_mass_balance r)) hst1
    rw [hrxn, ← hst2]
    exact (maxAbsVal_lt_iff (by norm_num)).mp hlt
  · intro hrf hq
    obtain ⟨p, hfp, hrxn⟩ := balance_reaction_charge_fixed hrf
    have hmem : p ∈ allMets := List.mem_of_find?_eq_some hfp
    have hpred := List.find?_some hfp
    rw [Bool.and_eq_true] at hpred
    have hpc : p.charge = some 1 := hq p hmem hpred.1
    rw [hrxn]
    show BalanceModel.chargeSumMets
      (addMet r.mets p (-(BalanceModel.calculate_charge_balance r))) = 0
    rw [chargeSumMets_addMet, hpc]
    show BalanceModel.chargeSumMets r.mets +
      -(BalanceModel.chargeSumMets r.mets) * ((1 : Int) : Rat) = 0
    push_cast
    ring

/-- Witness for the amended C2: the proton fix leaves the H2-to-H reaction
element balanced, and the charge fix zeroes the charge balance of the
charge-imbalanced reaction when the proton species has charge 1. -/
theorem claim_C2_conservation_amended_witness :
    (∀ p ∈ BalanceModel.calculate_mass_balance
        (BalanceModel.balance_reaction_mass [protonC] rxnMassFix).rxn,
      rabs p.2 < 1/100) ∧
    BalanceModel.calculate_charge_balance
      (BalanceModel.balance_reaction_charge [protonC] rxnChargeCex).rxn = 0 :=
  ⟨(claim_C2_conservation_amended [protonC] rxnMassFix).1
      (by with_unfolding_all decide),
   (claim_C2_conservation_amended [protonC] rxnChargeCex).2
      (by with_unfolding_all decide) (by with_unfolding_all decide)⟩

theorem massBalanceAux_unknown (mets : List (Metabolite × Rat))
    (acc : List (String × Rat))
    (h : ∃ p ∈ mets, truthy (BalanceModel.get_metabolite_formula p.1) = false) :
    BalanceModel.massBalanceAux acc mets = [("unknown", 1)] := by
  induction mets generalizing acc with
  | nil =>
    obtain ⟨p, hp, _⟩ := h
    cases hp
  | cons q rest ih =>
    obtain ⟨m, c⟩ := q
    rcases hgm : BalanceModel.get_metabolite_formula m with _ | f
    · simp [BalanceModel.massBalanceAux, hgm]
    · by_cases hf : f = ""
      · simp [BalanceModel.massBalanceAux, hgm, hf]
      · simp only [BalanceModel.massBalanceAux, hgm, if_neg hf]
        apply ih
        obtain ⟨p, hp, hfal⟩ := h
        rcases List.mem_cons.mp hp with heq | hmem
        · exfalso
          rw [heq] at hfal
          simp only at hfal
          rw [hgm] at hfal
          simp [truthy, hf] at hfal
        · exact ⟨p, hmem, hfal⟩

theorem analyze_balance_no_unknown_aux (rxns : List Rxn)
    (acc : List (String × List (String × Rat)) × List (String × Rat))
    (hacc : ∀ e ∈ acc.1, hasKey e.2 "unknown" = false) :
    ∀ e ∈ (rxns.foldl BalanceModel.analyzeStep acc).1, hasKey e.2 "unknown" = false := by
  induction rxns generalizing acc with
  | nil => exact hacc
  | cons r rest ih =>
    simp only [List.foldl_cons]
    apply ih
    intro e he
    unfold BalanceModel.analyzeStep at he
    by_cases hcond : (!(BalanceModel.calculate_mass_balance r).isEmpty &&
        !hasKey (BalanceModel.calculate_mass_balance r) "unknown" &&
        decide (1/100 < BalanceModel.maxAbsVal (BalanceModel.calculate_mass_balance r))) = true
    · rw [if_pos hcond] at he
      rcases List.mem_append.mp he with hmem | hmem
      · exact hacc e hmem
      · have heq : e = (r.id, BalanceModel.calculate_mass_balance r) := by
          simpa using hmem
        rw [heq]
        simp only [Bool.and_eq_true, Bool.not_eq_true'] at hcond
        exact hcond.1.2
    · rw [if_neg hcond] at he
      exact hacc e he

theorem sideGo_miss_mono {x : String} :
    ∀ (mets : List (Metabolite × Rat)) acc chg miss, x ∈ miss →
      x ∈ (BalanceRxns.sideGo acc chg miss mets).2.2 := by
  intro mets
  induction mets with
  | nil =>
    intro acc chg miss hx
    exact hx
  | cons q rest ih =>
    intro acc chg miss hx
    obtain ⟨m, c⟩ := q
    by_cases hm : formulaFalsy m = true
    · simp only [BalanceRxns.sideGo, if_pos hm]
      exact ih _ _ _ (List.mem_append_left _ hx)
    · simp only [BalanceRxns.sideGo, if_neg hm]
      exact ih _ _ _ hx

theorem sideGo_miss_mem {p : Metabolite × Rat} :
    ∀ (mets : List (Metabolite × Rat)), p ∈ mets → formulaFalsy p.1 = true →
      ∀ acc chg miss, p.1.id ∈ (BalanceRxns.sideGo acc chg miss mets).2.2 := by
  intro mets
  induction mets with
  | nil =>
    intro hp
    cases hp
  | cons q rest ih =>
    intro hp hfal acc chg miss
    obtain ⟨m, c⟩ := q
    rcases List.mem_cons.mp hp with heq | hmem
    · have hm : formulaFalsy m = true := by
        rw [heq] at hfal
        exact hfal
      simp only [BalanceRxns.sideGo, if_pos hm]
      apply sideGo_miss_mono
      apply List.mem_append_right
      rw [heq]
      simp
    · by_cases hm : formulaFalsy m = true
      · simp only [BalanceRxns.sideGo, if_pos hm]
        exact ih hmem hfal _ _ _
      · simp only [BalanceRxns.sideGo, if_neg hm]
        exact ih hmem hfal _ _ _

theorem analyze_reaction_balance_missing (r : Rxn) :
    (BalanceRxns.analyze_reaction_balance r).missing_formulas =
      (BalanceRxns.sideGo [] 0 [] (reactantsOf r)).2.2 ++
        (BalanceRxns.sideGo [] 0 [] (productsOf r)).2.2 := rfl

/-- Counterexample to C4: in balance_reactions.py a reaction with a
missing-formula metabolite is flagged, but its per-element mass balance IS
still evaluated over the remaining metabolites — the O imbalance is
computed and the reaction reported mass-imbalanced, contradicting "not
evaluated further"; and in balance_model_reactions.py a missing-formula
reaction is not safe from edits either: with a charge imbalance of 1 the
charge pass mutates it and reports it fixed, contradicting "no corrective
edit is applied". -/
theorem claim_C4_counterexample :
    (BalanceRxns.analyze_reaction_balance rxnMiss4).missing_formulas = ["x_c"] ∧
    (BalanceRxns.analyze_reaction_balance rxnMiss4).is_mass_balanced = false ∧
    (BalanceRxns.analyze_reaction_balance rxnMiss4).element_imbalances = [("O", -2)] ∧
    hasKey (BalanceModel.calculate_mass_balance rxnMissCharge) "unknown" = true ∧
    (BalanceModel.balance_reaction_charge [protonC] rxnMissCharge).rxn.mets ≠
      rxnMissCharge.mets ∧
    (BalanceModel.balance_reaction_charge [protonC] rxnMissCharge).reportedFixed = true := by
  with_unfolding_all decide

/-- C4 as amended: in balance_model_reactions.py a reaction with any
unresolved formula evaluates to the `unknown` sentinel, the analysis pass
never places a sentinel-carrying balance in the mass-imbalanced list, so
no MASS corrective edit is ever attempted on such a reaction and
processing of the remaining reactions continues; the charge pass, however,
performs no formula check at all: a non-exchange reaction with a charge
imbalance at or above tolerance and a proton species available — missing
formulas or not — has its proton coefficient edited and is reported
charge-fixed.  In balance_reactions.py every missing-formula metabolite id
is flagged in the reaction's missing_formulas list, but the element
balance of the remaining metabolites is still computed (that script
applies no edits). -/
theorem claim_C4_missing_formula_amended (r : Rxn) (rxns : List Rxn)
    (entry : String × List (String × Rat)) (allMets : List Metabolite)
    (p : Metabolite) :
    ((∃ q ∈ r.mets, truthy (BalanceModel.get_metabolite_formula q.1) = false) →
      BalanceModel.calculate_mass_balance r = [("unknown", 1)]) ∧
    (entry ∈ (BalanceModel.analyze_balance rxns).1 →
      hasKey entry.2 "unknown" = false) ∧
    (∀ q ∈ r.mets, formulaFalsy q.1 = true →
      q.1.id ∈ (BalanceRxns.analyze_reaction_balance r).missing_formulas) ∧
    (BalanceModel.is_exchange_reaction r = false →
      ¬ rabs (BalanceModel.calculate_charge_balance r) < 1/100 →
      BalanceModel.findProton allMets (BalanceModel.mainCompFirst r) = some p →
      (BalanceModel.balance_reaction_charge allMets r).rxn.mets =
        addMet r.mets p (-(BalanceModel.calculate_charge_balance r)) ∧
      (BalanceModel.balance_reaction_charge allMets r).reportedFixed = true) := by
  refine ⟨?_, ?_, ?_, ?_⟩
  · intro h
    exact massBalanceAux_unknown r.mets [] h
  · intro hmem
    exact analyze_balance_no_unknown_aux rxns ([], []) (by simp) entry hmem
  · intro q hq hfal
    rw [analyze_reaction_balance_missing]
    by_cases hc : q.2 < 0
    · apply List.mem_append_left
      exact sideGo_miss_mem (reactantsOf r)
        (List.mem_filter.mpr ⟨hq, decide_eq_true hc⟩) hfal [] 0 []
    · apply List.mem_append_right
      exact sideGo_miss_mem (productsOf r)
        (List.mem_filter.mpr ⟨hq, decide_eq_true (not_lt.mp hc)⟩) hfal [] 0 []
  · intro hex hcb hfp
    unfold BalanceModel.balance_reaction_charge
    rw [if_neg (by simp [hex]), if_neg hcb, hfp]
    exact ⟨rfl, rfl⟩

/-- Witness for the amended C4: the missing-formula reactions evaluate to
the sentinel, a mass-imbalanced entry of the analysis carries no sentinel,
the flagged metabolite id appears in the analysis record, and the charge
pass edits the missing-formula charge-imbalanced reaction. -/
theorem claim_C4_missing_formula_amended_witness :
    BalanceModel.calculate_mass_balance rxnMiss9 = [("unknown", 1)] ∧
    hasKey [("C", -1), ("N", 1)] "unknown" = false ∧
    (mkMetNF "x_c" "c", (-1 : Rat)).1.id ∈
      (BalanceRxns.analyze_reaction_balance rxnMiss4).missing_formulas ∧
    (BalanceModel.balance_reaction_charge [protonC] rxnMissCharge).rxn.mets =
      addMet rxnMissCharge.mets protonC
        (-(BalanceModel.calculate_charge_balance rxnMissCharge)) ∧
    (BalanceModel.balance_reaction_charge [protonC] rxnMissCharge).reportedFixed = true :=
  ⟨(claim_C4_missing_formula_amended rxnMiss9 [] ("", []) [] protonC).1
      (by with_unfolding_all decide),
   (claim_C4_missing_formula_amended rxnMiss9 [rxnUnfix]
      ("R1", [("C", -1), ("N", 1)]) [] protonC).2.1 (by with_unfolding_all decide),
   (claim_C4_missing_formula_amended rxnMiss4 [] ("", []) [] protonC).2.2.1
      (mkMetNF "x_c" "c", -1) (by with_unfolding_all decide)
      (by with_unfolding_all decide),
   (claim_C4_missing_formula_amended rxnMissCharge [] ("", [])
      [protonC] protonC).2.2.2 (by with_unfolding_all decide)
      (by with_unfolding_all decide) (by with_unfolding_all decide)⟩

theorem fix_proton_balance_id (aM : List Metabolite) (r : Rxn)
    (eb : List (String × Rat)) :
    (BalanceModel.fix_proton_balance aM r eb).1.id = r.id := by
  unfold BalanceModel.fix_proton_balance
  split
  · rfl
  · split <;> rfl

theorem fix_water_balance_id (aM : List Metabolite) (r : Rxn)
    (eb : List (String × Rat)) :
    (BalanceModel.fix_water_balance aM r eb).1.id = r.id := by
  unfold BalanceModel.fix_water_balance
  split
  · rfl
  · split
    · rfl
    · split <;> rfl

theorem massStep1_id (aM : List Metabolite) (r : Rxn) (eb : List (String × Rat)) :
    (BalanceModel.massStep1 aM r eb).1.id = r.id := by
  unfold BalanceModel.massStep1
  split
  · have hid := fix_proton_balance_id aM r eb
    rcases hfp : BalanceModel.fix_proton_balance aM r eb with ⟨r1, b⟩
    rw [hfp] at hid
    cases b <;> simpa using hid
  · rfl

theorem massStep2_id (aM : List Metabolite) (rc : Rxn × List (String × Rat)) :
    (BalanceModel.massStep2 aM rc).1.id = rc.1.id := by
  unfold BalanceModel.massStep2
  split
  · have hid := fix_water_balance_id aM rc.1 rc.2
    rcases hfw : BalanceModel.fix_water_balance aM rc.1 rc.2 with ⟨r2, b⟩
    rw [hfw] at hid
    cases b <;> simpa using hid
  · rfl

theorem balance_reaction_mass_id (aM : List Metabolite) (r : Rxn) :
    (BalanceModel.balance_reaction_mass aM r).rxn.id = r.id := by
  unfold BalanceModel.balance_reaction_mass
  split_ifs
  · rfl
  · rfl
  · rw [show (BalanceModel.FixResult.mk
      (BalanceModel.massStep2 aM (BalanceModel.massStep1 aM r
        (BalanceModel.calculate_mass_balance r))).1 true true).rxn =
      (BalanceModel.massStep2 aM (BalanceModel.massStep1 aM r
        (BalanceModel.calculate_mass_balance r))).1 from rfl]
    rw [massStep2_id, massStep1_id]
  · show ((BalanceModel.massStep2 aM (BalanceModel.massStep1 aM r
      (BalanceModel.calculate_mass_balance r))).1.id = r.id)
    rw [massStep2_id, massStep1_id]

theorem balance_reaction_charge_id (aM : List Metabolite) (r : Rxn) :
    (BalanceModel.balance_reaction_charge aM r).rxn.id = r.id := by
  unfold BalanceModel.balance_reaction_charge
  split_ifs
  · rfl
  · rfl
  · split <;> rfl

theorem getRxn_some_of_mem {rxns : List Rxn} {rid : String}
    (h : rid ∈ rxns.map Rxn.id) :
    ∃ r, BalanceModel.getRxn rxns rid = some r := by
  induction rxns with
  | nil => simp at h
  | cons r rest ih =>
    unfold BalanceModel.getRxn at *
    by_cases hr : r.id = rid
    · exact ⟨r, List.find?_cons_of_pos _ (decide_eq_true hr)⟩
    · have h' : rid ∈ rest.map Rxn.id := by
        simp only [List.map_cons, List.mem_cons] at h
        rcases h with h | h
        · exact absurd h.symm hr
        · exact h
      obtain ⟨x, hx⟩ := ih h'
      refine ⟨x, ?_⟩
      rw [List.find?_cons_of_neg _ (by simpa using hr)]
      exact hx

theorem getRxn_id {rxns : List Rxn} {rid : String} {r : Rxn}
    (h : BalanceModel.getRxn rxns rid = some r) : r.id = rid := by
  have := List.find?_some h
  exact of_decide_eq_true this

theorem map_id_setRxn {rxns : List Rxn} {rid : String} {r' : Rxn} (h : r'.id = rid) :
    (BalanceModel.setRxn rxns rid r').map Rxn.id = rxns.map Rxn.id := by
  induction rxns with
  | nil => rfl
  | cons r rest ih =>
    unfold BalanceModel.setRxn at *
    simp only [List.map_cons]
    by_cases hr : r.id = rid
    · simp only [if_pos hr, List.map_cons]
      rw [ih, h, hr]
    · simp only [if_neg hr, List.map_cons]
      rw [ih]

theorem fixMassLoop_attempts (aM : List Metabolite)
    (entries : List (String × List (String × Rat))) :
    ∀ (rxns : List Rxn) (e : String × List (String × Rat)), e ∈ entries →
      e.1 ∈ rxns.map Rxn.id →
      e.1 ∈ (BalanceModel.fixMassLoop aM rxns entries).attempts.map Prod.fst := by
  induction entries with
  | nil =>
    intro rxns e he _
    cases he
  | cons q rest ih =>
    intro rxns e he hid
    obtain ⟨rid, imb⟩ := q
    rcases hget : BalanceModel.getRxn rxns rid with _ | r
    · simp only [BalanceModel.fixMassLoop, hget]
      rcases List.mem_cons.mp he with heq | hmem
      · exfalso
        rw [heq] at hid
        obtain ⟨x, hx⟩ := getRxn_some_of_mem hid
        rw [hget] at hx
        cases hx
      · exact ih rxns e hmem hid
    · simp only [BalanceModel.fixMassLoop, hget]
      rcases List.mem_cons.mp he with heq | hmem
      · rw [heq]
        simp
      · have hids : (BalanceModel.setRxn rxns rid
            (BalanceModel.balance_reaction_mass aM r).rxn).map Rxn.id =
            rxns.map Rxn.id := by
          apply map_id_setRxn
          rw [balance_reaction_mass_id]
          exact getRxn_id hget
        have := ih _ e hmem (by rw [hids]; exact hid)
        simp only [List.map_cons, List.mem_cons]
        exact Or.inr this

theorem fixMassLoop_unfix (aM : List Metabolite)
    (entries : List (String × List (String × Rat))) :
    ∀ (rxns : List Rxn) (rid : String),
      (rid, false) ∈ (BalanceModel.fixMassLoop aM rxns entries).attempts →
      (rid, "mass") ∈ (BalanceModel.fixMassLoop aM rxns entries).unfix := by
  induction entries with
  | nil =>
    intro rxns rid h
    cases h
  | cons q rest ih =>
    intro rxns rid h
    obtain ⟨rid', imb⟩ := q
    rcases hget : BalanceModel.getRxn rxns rid' with _ | r
    · simp only [BalanceModel.fixMassLoop, hget] at h ⊢
      exact ih _ _ h
    · simp only [BalanceModel.fixMassLoop, hget] at h ⊢
      rcases List.mem_cons.mp h with heq | hmem
      · have h1 : rid = rid' := congrArg Prod.fst heq
        have h2 : (BalanceModel.balance_reaction_mass aM r).ok = false :=
          (congrArg Prod.snd heq).symm
        rw [h2]
        simp [h1]
      · have := ih _ _ hmem
        rcases hok : (BalanceModel.balance_reaction_mass aM r).ok with _ | _
        · rw [if_neg (by simp)]
          exact List.mem_cons_of_mem _ this
        · rw [if_pos rfl]
          exact this

theorem fixChargeLoop_attempts (aM : List Metabolite)
    (entries : List (String × Rat)) :
    ∀ (rxns : List Rxn) (e : String × Rat), e ∈ entries →
      e.1 ∈ rxns.map Rxn.id →
      e.1 ∈ (BalanceModel.fixChargeLoop aM rxns entries).attempts.map Prod.fst := by
  induction entries with
  | nil =>
    intro rxns e he _
    cases he
  | cons q rest ih =>
    intro rxns e he hid
    obtain ⟨rid, cb⟩ := q
    rcases hget : BalanceModel.getRxn rxns rid with _ | r
    · simp only [BalanceModel.fixChargeLoop, hget]
      rcases List.mem_cons.mp he with heq | hmem
      · exfalso
        rw [heq] at hid
        obtain ⟨x, hx⟩ := getRxn_some_of_mem hid
        rw [hget] at hx
        cases hx
      · exact ih rxns e hmem hid
    · simp only [BalanceModel.fixChargeLoop, hget]
      rcases List.mem_cons.mp he with heq | hmem
      · rw [heq]
        simp
      · have hids : (BalanceModel.setRxn rxns rid
            (BalanceModel.balance_reaction_charge aM r).rxn).map Rxn.id =
            rxns.map Rxn.id := by
          apply map_id_setRxn
          rw [balance_reaction_charge_id]
          exact getRxn_id hget
        have := ih _ e hmem (by rw [hids]; exact hid)
        simp only [List.map_cons, List.mem_cons]
        exact Or.inr this

theorem fixChargeLoop_unfix (aM : List Metabolite) (entries : List (String × Rat)) :
    ∀ (rxns : List Rxn) (rid : String),
      (rid, false) ∈ (BalanceModel.fixChargeLoop aM rxns entries).attempts →
      (rid, "charge") ∈ (BalanceModel.fixChargeLoop aM rxns entries).unfix := by
  induction entries with
  | nil =>
    intro rxns rid h
    cases h
  | cons q rest ih =>
    intro rxns rid h
    obtain ⟨rid', cb⟩ := q
    rcases hget : BalanceModel.getRxn rxns rid' with _ | r
    · simp only [BalanceModel.fixChargeLoop, hget] at h ⊢
      exact ih _ _ h
    · simp only [BalanceModel.fixChargeLoop, hget] at h ⊢
      rcases List.mem_cons.mp h with heq | hmem
      · have h1 : rid = rid' := congrArg Prod.fst heq
        have h2 : (BalanceModel.balance_reaction_charge aM r).ok = false :=
          (congrArg Prod.snd heq).symm
        rw [h2]
        simp [h1]
      · have := ih _ _ hmem
        rcases hok : (BalanceModel.balance_reaction_charge aM r).ok with _ | _
        · rw [if_neg (by simp)]
          exact List.mem_cons_of_mem _ this
        · rw [if_pos rfl]
          exact this

/-- Counterexample to C9: a model whose single reaction has a missing
formula and a balanced charge yields an analysis with empty
mass-imbalanced and charge-imbalanced lists, so the fix loops run over
nothing: the reaction, though indeterminate, appears in none of the
report's lists — balance_model_reactions.py has no missing_formula report
category. -/
theorem claim_C9_counterexample :
    BalanceModel.calculate_mass_balance rxnMiss9 = [("unknown", 1)] ∧
    BalanceModel.analyze_balance [rxnMiss9] = ([], []) ∧
    (BalanceModel.fixMassLoop [] [rxnMiss9]
      (BalanceModel.analyze_balance [rxnMiss9]).1).unfix = [] ∧
    (BalanceModel.fixChargeLoop [] [rxnMiss9]
      (BalanceModel.analyze_balance [rxnMiss9]).2).unfix = [] := by
  with_unfolding_all decide

/-- C9 as amended: the balance_reactions.py report enumerates every
reaction of the model (each reaction id keys a reaction_details entry,
including indeterminate ones); in balance_model_reactions.py every entry
of the imbalanced lists whose id occurs in the model is attempted — no
attempt aborts the loop — and every attempt that returns False is recorded
in the unfixable list with its type; but a missing-formula reaction with
charge in tolerance enters neither imbalanced list, so it is absent from
that report. -/
theorem claim_C9_report_amended (aM : List Metabolite) (rxns : List Rxn) :
    (∀ r ∈ rxns, r.id ∈ (BalanceRxns.analyze_model_balance rxns).map Prod.fst) ∧
    (∀ (entries : List (String × List (String × Rat)))
        (e : String × List (String × Rat)), e ∈ entries →
      e.1 ∈ rxns.map Rxn.id →
      e.1 ∈ (BalanceModel.fixMassLoop aM rxns entries).attempts.map Prod.fst) ∧
    (∀ (entries : List (String × List (String × Rat))) (rid : String),
      (rid, false) ∈ (BalanceModel.fixMassLoop aM rxns entries).attempts →
      (rid, "mass") ∈ (BalanceModel.fixMassLoop aM rxns entries).unfix) ∧
    (∀ (entries : List (String × Rat)) (e : String × Rat), e ∈ entries →
      e.1 ∈ rxns.map Rxn.id →
      e.1 ∈ (BalanceModel.fixChargeLoop aM rxns entries).attempts.map Prod.fst) ∧
    (∀ (entries : List (String × Rat)) (rid : String),
      (rid, false) ∈ (BalanceModel.fixChargeLoop aM rxns entries).attempts →
      (rid, "charge") ∈ (BalanceModel.fixChargeLoop aM rxns entries).unfix) := by
  refine ⟨?_, ?_, ?_, ?_, ?_⟩
  · intro r hr
    unfold BalanceRxns.analyze_model_balance
    simp only [List.map_map]
    exact List.mem_map.mpr ⟨r, hr, rfl⟩
  · intro entries e he hid
    exact fixMassLoop_attempts aM entries rxns e he hid
  · intro entries rid h
    exact fixMassLoop_unfix aM entries rxns rid h
  · intro entries e he hid
    exact fixChargeLoop_attempts aM entries rxns e he hid
  · intro entries rid h
    exact fixChargeLoop_unfix aM entries rxns rid h

/-- Witness for the amended C9 on a one-reaction model whose reaction is
mass-unfixable: its id keys the analysis report, it is attempted, and its
failure is recorded in the unfixable list. -/
theorem claim_C9_report_amended_witness :
    rxnUnfix.id ∈ (BalanceRxns.analyze_model_balance [rxnUnfix]).map Prod.fst ∧
    "R1" ∈ (BalanceModel.fixMassLoop [] [rxnUnfix]
      (BalanceModel.analyze_balance [rxnUnfix]).1).attempts.map Prod.fst ∧
    ("R1", "mass") ∈ (BalanceModel.fixMassLoop [] [rxnUnfix]
      (BalanceModel.analyze_balance [rxnUnfix]).1).unfix :=
  ⟨(claim_C9_report_amended [] [rxnUnfix]).1 rxnUnfix (by simp),
   (claim_C9_report_amended [] [rxnUnfix]).2.1 _ ("R1", [("C", -1), ("N", 1)])
     (by with_unfolding_all decide) (by with_unfolding_all decide),
   (claim_C9_report_amended [] [rxnUnfix]).2.2.1 _ "R1"
     (by with_unfolding_all decide)⟩

theorem getMetCoeff_addMet (l : List (Metabolite × Rat)) (m : Metabolite) (d : Rat) :
    getMetCoeff (addMet l m d) m = getMetCoeff l m + d := by
  induction l with
  | nil => simp [addMet, getMetCoeff]
  | cons p rest ih =>
    obtain ⟨m', c⟩ := p
    by_cases hpm : m' = m
    · subst hpm
      simp [addMet, getMetCoeff]
    · simp [addMet, getMetCoeff, hpm, ih]

/-- Counterexample to C7: a reaction whose residual H imbalance is 1/200
away from twice its O imbalance — so NOT exactly 2 times it — still gets
the water adjustment (the code tolerates a 0.1 gap), ends up reported
fixed, and keeps the inserted water coefficient. -/
theorem claim_C7_counterexample :
    (BalanceModel.balance_reaction_mass [waterC] rxnWater).reportedFixed = true ∧
    getMetCoeff (BalanceModel.balance_reaction_mass [waterC] rxnWater).rxn.mets waterC = 1 ∧
    lookupQ (BalanceModel.calculate_mass_balance rxnWater) "H" ≠
      2 * lookupQ (BalanceModel.calculate_mass_balance rxnWater) "O" := by
  with_unfolding_all decide

/-- C7 as amended: the water adjustment mutates the reaction only when the
oxygen imbalance is at least the 0.01 tolerance and the hydrogen imbalance
is within 0.1 of twice the oxygen imbalance (not exactly equal to it);
when those hold and a water species exists in the first metabolite's
compartment, the water coefficient is adjusted by the negated oxygen
imbalance, the entry being created when absent (an absent entry counting
as coefficient 0). -/
theorem claim_C7_water_fix_amended (allMets : List Metabolite) (r : Rxn)
    (eb : List (String × Rat)) :
    ((BalanceModel.fix_water_balance allMets r eb).1 ≠ r →
      1/100 ≤ rabs (lookupQ eb "O") ∧
      rabs (lookupQ eb "H" - 2 * lookupQ eb "O") ≤ 1/10) ∧
    (∀ w, 1/100 ≤ rabs (lookupQ eb "O") →
      rabs (lookupQ eb "H" - 2 * lookupQ eb "O") ≤ 1/10 →
      BalanceModel.findWater allMets (BalanceModel.mainCompFirst r) = some w →
      (BalanceModel.fix_water_balance allMets r eb).1.mets =
        addMet r.mets w (-(lookupQ eb "O")) ∧
      (BalanceModel.fix_water_balance allMets r eb).2 = true ∧
      getMetCoeff (BalanceModel.fix_water_balance allMets r eb).1.mets w =
        getMetCoeff r.mets w - lookupQ eb "O") := by
  constructor
  · intro hne
    by_cases hO : rabs (lookupQ eb "O") < 1/100
    · exfalso
      apply hne
      unfold BalanceModel.fix_water_balance
      rw [if_pos hO]
    · refine ⟨not_lt.mp hO, ?_⟩
      by_cases hH : 1/10 < rabs (lookupQ eb "H" - 2 * lookupQ eb "O")
      · exfalso
        apply hne
        unfold BalanceModel.fix_water_balance
        rw [if_neg hO, if_pos hH]
      · exact not_lt.mp hH
  · intro w hO hH hfw
    unfold BalanceModel.fix_water_balance
    rw [if_neg (not_lt.mpr hO), if_neg (not_lt.mpr hH), hfw]
    refine ⟨rfl, rfl, ?_⟩
    show getMetCoeff (addMet r.mets w (-(lookupQ eb "O"))) w = _
    rw [getMetCoeff_addMet]
    ring

/-- Witness for the amended C7 at the reaction with O imbalance 1 and H
imbalance 399/200. -/
theorem claim_C7_water_fix_amended_witness :
    (BalanceModel.fix_water_balance [waterC] rxnWater
        (BalanceModel.calculate_mass_balance rxnWater)).1.mets =
      addMet rxnWater.mets waterC
        (-(lookupQ (BalanceModel.calculate_mass_balance rxnWater) "O")) ∧
    (BalanceModel.fix_water_balance [waterC] rxnWater
        (BalanceModel.calculate_mass_balance rxnWater)).2 = true ∧
    getMetCoeff (BalanceModel.fix_water_balance [waterC] rxnWater
        (BalanceModel.calculate_mass_balance rxnWater)).1.mets waterC =
      getMetCoeff rxnWater.mets waterC -
        lookupQ (BalanceModel.calculate_mass_balance rxnWater) "O" :=
  (claim_C7_water_fix_amended [waterC] rxnWater
      (BalanceModel.calculate_mass_balance rxnWater)).2 waterC
    (by with_unfolding_all decide) (by with_unfolding_all decide)
    (by with_unfolding_all decide)

/-- Witness for C10: a reaction with H imbalance 5 is left unchanged and
listed for review. -/
theorem claim_C10_proton_fixer_limit_witness :
    (ProtonFix.fixProtonStep protonC rxnBigH).1 = rxnBigH ∧
    (ProtonFix.fixProtonStep protonC rxnBigH).2 =
      some (rxnBigH.id, (ProtonFix.analyze_h_balance rxnBigH).h_imbalance) :=
  (claim_C10_proton_fixer_limit protonC rxnBigH).2
    (by with_unfolding_all decide) (by with_unfolding_all decide)

end GemBal
